import Mathlib

/-!
Verification of the `tool_agent_demo` workflow engine against its
natural-language specification.

The development shallowly embeds the Python sources:

* `result.py` — the `Result` dataclass with its `is_ok` / `is_err` /
  `__or__` / `unwrap` members (`ResultV` below, over the dynamic value
  universe `PyVal`);
* `agent.py` — the tool decorator's wrapper, the workflow AST
  transformer (`visit_Assign` / `visit_Return` / `is_tool_call`) and
  `update_workflow_from_graph`, over a small statement language `Stmt`
  mirroring the Python statement shapes the workflows use;
* `workflow_serializer.py` — `DependencyAnalyzer`, `serialize_workflow`
  and `deserialize_workflow` over the same statement language;
* `api/executor.py` — the step-by-step start / continue scripts and the
  kernel bookkeeping of `AsyncExecutor.execute`, with the sandbox state
  made explicit.
-/

namespace ToolAgentDemo

/-- Dynamic (Python) values: the universe over which the embedded code
computes.  `none` is Python's `None`; `exn` models exception objects by
their class name and message. -/
inductive PyVal where
  | none : PyVal
  | int (n : Int) : PyVal
  | str (s : String) : PyVal
  | bool (b : Bool) : PyVal
  | tuple (vs : List PyVal) : PyVal
  | list (vs : List PyVal) : PyVal
  | exn (cls msg : String) : PyVal

/-- Python's `x is None` test. -/
def PyVal.isNone : PyVal → Bool
  | .none => true
  | _ => false

/-- Embeds `result.py`, `class Result`.  The dataclass has four slots, each
defaulting to `None`.  Python cannot distinguish "slot absent" from
"slot holds `None`" for `value` and `error` (the code tests
`is not None`), so those two slots are plain `PyVal` with `PyVal.none`
as the default.  `combined_values` (a tuple or `None`) and
`combined_errors` (a list or `None`) are `Option`s. -/
structure ResultV where
  value : PyVal := .none
  error : PyVal := .none
  combined_values : Option (List PyVal) := Option.none
  combined_errors : Option (List PyVal) := Option.none

namespace ResultV

/-- Embeds `Result.is_ok`: `self.error is None and (self.combined_errors is
None or len(self.combined_errors) == 0)`. -/
def is_ok (r : ResultV) : Bool :=
  r.error.isNone &&
    (match r.combined_errors with
     | Option.none => true
     | some es => es.length == 0)

/-- Embeds `Result.is_err`: `not self.is_ok()`. -/
def is_err (r : ResultV) : Bool := !r.is_ok

/-- The value payload a `Result` contributes in `__or__`:
`combined_values` if present, else the single `value` unless it is
`None` (lines 38–41 of `result.py`). -/
def valuesPayload (r : ResultV) : List PyVal :=
  match r.combined_values with
  | some vs => vs
  | Option.none => if r.value.isNone then [] else [r.value]

/-- The error payload a `Result` contributes in `__or__`
(lines 43–46 of `result.py`). -/
def errorsPayload (r : ResultV) : List PyVal :=
  match r.combined_errors with
  | some es => es
  | Option.none => if r.error.isNone then [] else [r.error]

/-- Embeds `Result.__or__`: build the concatenated value and error lists and
return a `Result` whose combined slots hold them; an empty list is
falsy in Python, so `tuple(values) if values else None` stores `None`
for it. -/
def or (a b : ResultV) : ResultV :=
  let values := a.valuesPayload ++ b.valuesPayload
  let errors := a.errorsPayload ++ b.errorsPayload
  { value := .none
    error := .none
    combined_values := match values with | [] => Option.none | _ => some values
    combined_errors := match errors with | [] => Option.none | _ => some errors }

/-- Embeds `Result.unwrap` restricted to the case the embedded code exercises:
on an ok `Result` it returns the combined tuple if present, else the
single value.  (On an err `Result` the Python method raises; callers in
the embedded code always check `is_err` first.) -/
def unwrap (r : ResultV) : PyVal :=
  match r.combined_values with
  | some vs => .tuple vs
  | Option.none => r.value

end ResultV

/-- Helper: an ok `Result` wrapping a single value (what the tool
wrapper builds on success). -/
def okV (v : PyVal) : ResultV := { value := v }

/-- Helper: an err `Result` wrapping a single error (what the tool
wrapper builds on failure). -/
def errV (e : PyVal) : ResultV := { error := e }

/-- Specimen error object used by the concrete scenarios. -/
def sampleErr : PyVal := .exn "ValueError" "test error"

/-- Specimen: `ok("a")`. -/
def okA : ResultV := okV (.str "a")

/-- Specimen: `ok("b")`. -/
def okB : ResultV := okV (.str "b")

theorem or_combined_values (a b : ResultV)
    (h : a.valuesPayload ++ b.valuesPayload ≠ []) :
    (ResultV.or a b).combined_values =
      some (a.valuesPayload ++ b.valuesPayload) := by
  unfold ResultV.or
  cases hv : a.valuesPayload ++ b.valuesPayload with
  | nil => exact absurd hv h
  | cons x xs => simp only [hv]

theorem or_combined_errors (a b : ResultV)
    (h : a.errorsPayload ++ b.errorsPayload ≠ []) :
    (ResultV.or a b).combined_errors =
      some (a.errorsPayload ++ b.errorsPayload) := by
  unfold ResultV.or
  cases hv : a.errorsPayload ++ b.errorsPayload with
  | nil => exact absurd hv h
  | cons x xs => simp only [hv]

theorem or_is_ok_iff (a b : ResultV) :
    (ResultV.or a b).is_ok = true ↔ a.errorsPayload ++ b.errorsPayload = [] := by
  simp only [ResultV.or, ResultV.is_ok]
  cases h : a.errorsPayload ++ b.errorsPayload with
  | nil => simp [PyVal.isNone]
  | cons e es => simp [PyVal.isNone]

end ToolAgentDemo

namespace ToolAgentDemo

/-- **C3.** The combine operator `|` on Results: `ok("a") | ok("b")` is
an ok Result with combined values `("a","b")` in left-to-right order;
`ok("a") | err(E)` is an err Result with combined error list `[E]`;
`err(E1) | err(E2)` is an err Result with combined error list
`[E1, E2]`; and in general the value payloads of the two operands are
concatenated into a tuple, the error payloads into a list, and the
combined Result is ok iff that error list is empty. -/
theorem c3_combine_operator :
    (ResultV.or okA okB =
      { value := .none, error := .none,
        combined_values := some [.str "a", .str "b"],
        combined_errors := Option.none } ∧ (ResultV.or okA okB).is_ok = true) ∧
    (ResultV.or okA (errV sampleErr) =
      { value := .none, error := .none,
        combined_values := some [.str "a"],
        combined_errors := some [sampleErr] } ∧
      (ResultV.or okA (errV sampleErr)).is_err = true) ∧
    (ResultV.or (errV sampleErr) (errV sampleErr) =
      { value := .none, error := .none,
        combined_values := Option.none,
        combined_errors := some [sampleErr, sampleErr] } ∧
      (ResultV.or (errV sampleErr) (errV sampleErr)).is_err = true) ∧
    (∀ a b : ResultV,
      (a.valuesPayload ++ b.valuesPayload ≠ [] →
        (ResultV.or a b).combined_values =
          some (a.valuesPayload ++ b.valuesPayload)) ∧
      (a.errorsPayload ++ b.errorsPayload ≠ [] →
        (ResultV.or a b).combined_errors =
          some (a.errorsPayload ++ b.errorsPayload)) ∧
      ((ResultV.or a b).is_ok = true ↔ a.errorsPayload ++ b.errorsPayload = [])) := by
  refine ⟨⟨rfl, rfl⟩, ⟨rfl, rfl⟩, ⟨rfl, rfl⟩, ?_⟩
  intro a b
  exact ⟨or_combined_values a b, or_combined_errors a b, or_is_ok_iff a b⟩

/-- Witness for C3: the general conjunct applied at `okA`, `err E`. -/
theorem c3_combine_operator_witness :
    (ResultV.or okA (errV sampleErr)).combined_errors = some [sampleErr] := by
  have h := (c3_combine_operator.2.2.2 okA (errV sampleErr)).2.1
  simpa using h (by intro hc; cases hc)

/-- **C10 (implicit).** The combine operator never populates the
single-value or single-error slots — for all Results `a` and `b`,
`(a | b).value` and `(a | b).error` are both `None`, preserving the
at-most-one-payload-slot invariant — and an ok Result carrying `None`
is silently dropped: `Result(value=None) | ok("b")` has combined values
`("b",)` with no trace of the `None`, and combining two `None`-valued
ok Results gives `combined_values = None`. -/
theorem c10_combine_slots_and_none_dropping :
    (∀ a b : ResultV,
      (ResultV.or a b).value = .none ∧ (ResultV.or a b).error = .none) ∧
    (ResultV.or { value := .none } okB =
      { value := .none, error := .none,
        combined_values := some [.str "b"],
        combined_errors := Option.none }) ∧
    ((ResultV.or { value := .none } okB).combined_values = some [.str "b"]) ∧
    (ResultV.or { value := .none } { value := .none }).combined_values =
      Option.none := by
  exact ⟨fun a b => ⟨rfl, rfl⟩, rfl, rfl, rfl⟩

end ToolAgentDemo

namespace ToolAgentDemo

mutual

/-- Model of Python `==` on the value universe (structural for the
builtin types; exception objects are compared by class and message in
this model). -/
def pyEq : PyVal → PyVal → Bool
  | .none, .none => true
  | .int n, .int m => n == m
  | .str s, .str t => s == t
  | .bool a, .bool b => a == b
  | .tuple vs, .tuple ws => pyEqList vs ws
  | .list vs, .list ws => pyEqList vs ws
  | .exn c m, .exn c2 m2 => c == c2 && m == m2
  | _, _ => false

/-- Elementwise Python `==` on lists/tuples. -/
def pyEqList : List PyVal → List PyVal → Bool
  | [], [] => true
  | v :: vs, w :: ws => pyEq v w && pyEqList vs ws
  | _, _ => false

end

end ToolAgentDemo

namespace ToolAgentDemo

/-- Python `==` on optional combined slots. -/
def pyEqOptList : Option (List PyVal) → Option (List PyVal) → Bool
  | Option.none, Option.none => true
  | some vs, some ws => pyEqList vs ws
  | _, _ => false

/-- The dataclass-generated `Result.__eq__`: fieldwise equality, only
between two `Result`s. -/
def resultEq (r s : ResultV) : Bool :=
  pyEq r.value s.value && pyEq r.error s.error &&
    pyEqOptList r.combined_values s.combined_values &&
    pyEqOptList r.combined_errors s.combined_errors

/-- A positional or keyword argument as the tool wrapper sees it: either
a plain Python value or a `Result` instance (`isinstance(arg, Result)`
distinguishes the two). -/
inductive Arg where
  | val (v : PyVal)
  | res (r : ResultV)

/-- Python `==` on arguments: a `Result` never equals a non-`Result`
(the dataclass `__eq__` checks the operand's class). -/
def argEq : Arg → Arg → Bool
  | .val v, .val w => pyEq v w
  | .res r, .res s => resultEq r s
  | _, _ => false

/-- Model of `tuple.index`: the index of the first element equal to the
target, raising `ValueError` (here `Option.none`) when absent. -/
def listIndex (target : Arg) : List Arg → Option Nat
  | [] => Option.none
  | a :: rest =>
    if argEq a target then some 0 else (listIndex target rest).map (· + 1)

/-- Model of the tuple rebuild
`(*args[:k], x, *args[k+1:])` in the wrapper. -/
def replaceAt (cur : List Arg) (k : Nat) (x : Arg) : List Arg :=
  cur.take k ++ x :: cur.drop (k + 1)

/-- Outcome of the wrapper's argument-scanning loops. -/
inductive ArgScan (α : Type) where
  | done (cur : α)
  | shortCircuit (r : ResultV)
  | indexError

/-- Embeds the positional loop of the tool wrapper (`agent.py` lines
106–111): iterate over the original tuple while rebinding `args`; an
err `Result` argument is returned unchanged, an ok one is replaced in
the current tuple at `args.index(arg)` by `arg.unwrap()`. -/
def processArgs : List Arg → List Arg → ArgScan (List Arg)
  | [], cur => .done cur
  | .val _ :: rest, cur => processArgs rest cur
  | .res r :: rest, cur =>
    if r.is_err then .shortCircuit r
    else
      match listIndex (.res r) cur with
      | some k => processArgs rest (replaceAt cur k (.val r.unwrap))
      | Option.none => .indexError

/-- Embeds `kwargs[key] = value.unwrap()`: replace the value stored
under `key`. -/
def setKw (cur : List (String × Arg)) (k : String) (x : Arg) :
    List (String × Arg) :=
  cur.map fun p => if p.1 == k then (p.1, x) else p

/-- Embeds the keyword loop of the tool wrapper (`agent.py` lines
113–117): iterate over the items in insertion order; an err `Result`
value is returned unchanged, an ok one is unwrapped in place. -/
def processKwargs : List (String × Arg) → List (String × Arg) →
    ArgScan (List (String × Arg))
  | [], cur => .done cur
  | (_, .val _) :: rest, cur => processKwargs rest cur
  | (k, .res r) :: rest, cur =>
    if r.is_err then .shortCircuit r
    else processKwargs rest (setKw cur k (.val r.unwrap))

/-- The raw callable being wrapped: receives the (possibly unwrapped)
positional and keyword arguments, and either returns a value or raises. -/
def RawTool : Type := List Arg → List (String × Arg) → Except PyVal PyVal

/-- Embeds the `Agent.tool` decorator's `wrapper` (`agent.py` lines
102–122): scan positional then keyword arguments, short-circuiting on
the first err `Result`; call the raw function and wrap its return in an
ok `Result`; any exception raised inside the `try` block (including the
`ValueError` a failed `args.index` would raise) becomes an err
`Result`. -/
def toolWrapper (raw : RawTool) (args : List Arg)
    (kwargs : List (String × Arg)) : ResultV :=
  match processArgs args args with
  | .shortCircuit r => r
  | .indexError => errV (.exn "ValueError" "tuple.index(x): x not in tuple")
  | .done args2 =>
    match processKwargs kwargs kwargs with
    | .shortCircuit r => r
    | .indexError => errV (.exn "ValueError" "tuple.index(x): x not in tuple")
    | .done kwargs2 =>
      match raw args2 kwargs2 with
      | .ok v => { value := v }
      | .error e => { error := e }

/-- Substituting the contained value of an ok `Result` argument, as the
wrapper does; plain values pass through. -/
def unwrapArg : Arg → Arg
  | .val v => .val v
  | .res r => .val r.unwrap

/-- Whether an argument is a plain (non-`Result`) value. -/
def Arg.isVal : Arg → Bool
  | .val _ => true
  | .res _ => false

/-- The first err `Result` in an argument list (statement vocabulary for
C1's "first err in positional-then-keyword order"). -/
def firstErrArgs : List Arg → Option ResultV
  | [] => Option.none
  | .val _ :: rest => firstErrArgs rest
  | .res r :: rest => if r.is_err then some r else firstErrArgs rest

/-- The first err `Result` among positional then keyword arguments. -/
def firstErrSpec (args : List Arg) (kwargs : List (String × Arg)) :
    Option ResultV :=
  match firstErrArgs args with
  | some r => some r
  | Option.none => firstErrArgs (kwargs.map Prod.snd)

end ToolAgentDemo

namespace ToolAgentDemo

mutual

theorem pyEq_refl : ∀ v : PyVal, pyEq v v = true
  | .none => by simp [pyEq]
  | .int n => by simp [pyEq]
  | .str s => by simp [pyEq]
  | .bool b => by simp [pyEq]
  | .tuple vs => by rw [pyEq]; exact pyEqList_refl vs
  | .list vs => by rw [pyEq]; exact pyEqList_refl vs
  | .exn c m => by simp [pyEq]

theorem pyEqList_refl : ∀ vs : List PyVal, pyEqList vs vs = true
  | [] => by simp [pyEqList]
  | v :: vs => by rw [pyEqList, pyEq_refl v, pyEqList_refl vs]; rfl

end

theorem pyEqOptList_refl : ∀ o : Option (List PyVal), pyEqOptList o o = true
  | Option.none => rfl
  | some vs => pyEqList_refl vs

theorem resultEq_refl (r : ResultV) : resultEq r r = true := by
  simp [resultEq, pyEq_refl, pyEqOptList_refl]

theorem argEq_refl_res (r : ResultV) : argEq (.res r) (.res r) = true :=
  resultEq_refl r

theorem argEq_val_res (v : PyVal) (r : ResultV) :
    argEq (.val v) (.res r) = false := rfl

theorem listIndex_prefix (r : ResultV) :
    ∀ (pre : List Arg), (∀ a ∈ pre, a.isVal = true) → ∀ tail : List Arg,
    listIndex (.res r) (pre ++ .res r :: tail) = some pre.length
  | [], _, tail => by simp [listIndex, argEq_refl_res]
  | a :: pre, h, tail => by
    have ha : a.isVal = true := h a (by simp)
    cases a with
    | val v =>
      have hrec := listIndex_prefix r pre
        (fun x hx => h x (List.mem_cons_of_mem _ hx)) tail
      simp [listIndex, argEq_val_res, hrec]
    | res s => simp [Arg.isVal] at ha

theorem replaceAt_cons (b : Arg) (l : List Arg) (n : Nat) (x : Arg) :
    replaceAt (b :: l) (n + 1) x = b :: replaceAt l n x := rfl

theorem replaceAt_append (x : Arg) :
    ∀ (pre : List Arg) (a : Arg) (tail : List Arg),
    replaceAt (pre ++ a :: tail) pre.length x = pre ++ x :: tail
  | [], a, tail => rfl
  | b :: pre, a, tail => by
    rw [List.cons_append, List.length_cons, replaceAt_cons,
      replaceAt_append x pre a tail, List.cons_append]

theorem processArgs_spec :
    ∀ (rest pre : List Arg), (∀ a ∈ pre, a.isVal = true) →
    processArgs rest (pre ++ rest) =
      match firstErrArgs rest with
      | some r => .shortCircuit r
      | Option.none => .done (pre ++ rest.map unwrapArg)
  | [], pre, _ => by simp [processArgs, firstErrArgs]
  | .val v :: rest, pre, h => by
    have hpre : ∀ a ∈ pre ++ [Arg.val v], a.isVal = true := by
      intro a ha
      rcases List.mem_append.1 ha with h1 | h1
      · exact h a h1
      · simp at h1; subst h1; rfl
    have hrec := processArgs_spec rest (pre ++ [Arg.val v]) hpre
    rw [List.append_assoc, List.singleton_append] at hrec
    rw [show processArgs (Arg.val v :: rest) (pre ++ Arg.val v :: rest) =
        processArgs rest (pre ++ Arg.val v :: rest) from rfl, hrec]
    simp [firstErrArgs, unwrapArg]
  | .res r :: rest, pre, h => by
    rw [show processArgs (Arg.res r :: rest) (pre ++ Arg.res r :: rest) =
        (if r.is_err then .shortCircuit r
         else match listIndex (.res r) (pre ++ Arg.res r :: rest) with
           | some k => processArgs rest
               (replaceAt (pre ++ Arg.res r :: rest) k (.val r.unwrap))
           | Option.none => .indexError) from rfl]
    by_cases herr : r.is_err
    · simp [herr, firstErrArgs]
    · rw [if_neg herr, listIndex_prefix r pre h rest]
      show processArgs rest
          (replaceAt (pre ++ Arg.res r :: rest) pre.length (Arg.val r.unwrap)) = _
      rw [replaceAt_append (Arg.val r.unwrap) pre (Arg.res r) rest]
      have hpre : ∀ a ∈ pre ++ [Arg.val r.unwrap], a.isVal = true := by
        intro a ha
        rcases List.mem_append.1 ha with h1 | h1
        · exact h a h1
        · simp at h1; subst h1; rfl
      have hrec := processArgs_spec rest (pre ++ [Arg.val r.unwrap]) hpre
      rw [List.append_assoc, List.singleton_append] at hrec
      rw [hrec]
      simp [firstErrArgs, herr, unwrapArg]

theorem setKw_skip (k : String) (x : Arg) :
    ∀ l : List (String × Arg), (∀ p ∈ l, p.1 ≠ k) → setKw l k x = l
  | [], _ => rfl
  | p :: l, h => by
    have hp : p.1 ≠ k := h p (by simp)
    have hrec := setKw_skip k x l (fun q hq => h q (List.mem_cons_of_mem _ hq))
    simp only [setKw, List.map_cons] at hrec ⊢
    rw [if_neg (by simpa using hp), hrec]

theorem setKw_append (k : String) (x : Arg) :
    ∀ (pre tail : List (String × Arg)) (v : Arg),
    (∀ p ∈ pre, p.1 ≠ k) → (∀ p ∈ tail, p.1 ≠ k) →
    setKw (pre ++ (k, v) :: tail) k x = pre ++ (k, x) :: tail
  | [], tail, v, _, ht => by
    simp only [setKw, List.nil_append, List.map_cons]
    rw [if_pos (by simp)]
    have := setKw_skip k x tail ht
    simp only [setKw] at this
    rw [this]
  | p :: pre, tail, v, hp, ht => by
    have hne : p.1 ≠ k := hp p (by simp)
    have hrec := setKw_append k x pre tail v
      (fun q hq => hp q (List.mem_cons_of_mem _ hq)) ht
    simp only [setKw, List.map_cons, List.cons_append] at hrec ⊢
    rw [if_neg (by simpa using hne), hrec]

end ToolAgentDemo

namespace ToolAgentDemo

/-- Renaming-free shorthand for the keyword unwrapping map. -/
def unwrapKw (p : String × Arg) : String × Arg := (p.1, unwrapArg p.2)

theorem processKwargs_spec :
    ∀ (rest pre : List (String × Arg)),
    ((pre ++ rest).map Prod.fst).Nodup →
    processKwargs rest (pre.map unwrapKw ++ rest) =
      match firstErrArgs (rest.map Prod.snd) with
      | some r => .shortCircuit r
      | Option.none => .done ((pre ++ rest).map unwrapKw)
  | [], pre, _ => by simp [processKwargs, firstErrArgs]
  | (k, .val v) :: rest, pre, h => by
    have hrec := processKwargs_spec rest (pre ++ [(k, Arg.val v)]) (by
      rwa [List.append_assoc, List.singleton_append])
    rw [List.map_append, List.map_singleton, List.append_assoc,
      List.singleton_append] at hrec
    rw [show processKwargs ((k, Arg.val v) :: rest)
        (pre.map unwrapKw ++ (k, Arg.val v) :: rest) =
        processKwargs rest (pre.map unwrapKw ++ (k, Arg.val v) :: rest)
        from rfl]
    rw [show unwrapKw (k, Arg.val v) = (k, Arg.val v) from rfl] at hrec
    rw [hrec, List.append_assoc, List.singleton_append]
    simp [firstErrArgs]
  | (k, .res r) :: rest, pre, h => by
    rw [show processKwargs ((k, Arg.res r) :: rest)
        (pre.map unwrapKw ++ (k, Arg.res r) :: rest) =
        (if r.is_err then .shortCircuit r
         else processKwargs rest
           (setKw (pre.map unwrapKw ++ (k, Arg.res r) :: rest) k
             (.val r.unwrap))) from rfl]
    by_cases herr : r.is_err
    · simp [herr, firstErrArgs]
    · rw [if_neg herr]
      have hk : k ∉ pre.map Prod.fst ∧ k ∉ rest.map Prod.fst := by
        rw [List.map_append, List.map_cons] at h
        have h1 := List.Nodup.of_append_right h
        have h2 := List.disjoint_of_nodup_append h
        refine ⟨fun hm => h2 hm (by simp), by
          rcases List.nodup_cons.1 h1 with ⟨hk1, _⟩
          simpa using hk1⟩
      have hset := setKw_append k (Arg.val r.unwrap) (pre.map unwrapKw) rest
        (Arg.res r)
        (by
          intro p hp hpk
          rcases List.mem_map.1 hp with ⟨q, hq, hqe⟩
          apply hk.1
          refine List.mem_map.2 ⟨q, hq, ?_⟩
          rw [← hqe] at hpk
          exact hpk)
        (by
          intro p hp hpk
          exact hk.2 (List.mem_map.2 ⟨p, hp, hpk⟩))
      rw [hset]
      have hrec := processKwargs_spec rest (pre ++ [(k, Arg.res r)]) (by
        rwa [List.append_assoc, List.singleton_append])
      rw [List.map_append, List.map_singleton, List.append_assoc,
        List.singleton_append] at hrec
      rw [show unwrapKw (k, Arg.res r) = (k, Arg.val r.unwrap) from rfl] at hrec
      rw [hrec, List.append_assoc, List.singleton_append]
      simp [firstErrArgs, herr]

end ToolAgentDemo

namespace ToolAgentDemo

/-- Concrete raw tool for witnesses: `concat_tool(a, b)` returning
`a + "-" + b`, raising `TypeError` on other inputs. -/
def rawConcatTool : RawTool := fun args _kwargs =>
  match args with
  | [.val (.str a), .val (.str b)] => .ok (.str (a ++ "-" ++ b))
  | _ => .error (.exn "TypeError" "bad arguments")

/-- **C1.** For every tool-wrapped callable and every argument list: if
every argument is an ok Result or a plain value, the wrapped tool
returns an ok Result whose value is the raw callable applied to the
unwrapped arguments (and an err Result carrying the exception when the
raw callable raises — the wrapper never raises); if any argument is an
err Result, the wrapped tool returns that err Result unchanged (the
first err in positional-then-keyword order) without invoking the raw
callable — the outcome is the same for every raw callable. -/
theorem c1_tool_wrapper (args : List Arg) (kwargs : List (String × Arg))
    (hnd : (kwargs.map Prod.fst).Nodup) :
    (firstErrSpec args kwargs = Option.none →
      ∀ raw : RawTool,
        toolWrapper raw args kwargs =
          match raw (args.map unwrapArg) (kwargs.map unwrapKw) with
          | .ok v => okV v
          | .error e => errV e) ∧
    (∀ r : ResultV, firstErrSpec args kwargs = some r →
      ∀ raw : RawTool, toolWrapper raw args kwargs = r) := by
  have hargs := processArgs_spec args [] (by intro a ha; cases ha)
  simp only [List.nil_append] at hargs
  have hkw := processKwargs_spec kwargs [] (by simpa using hnd)
  simp only [List.map_nil, List.nil_append] at hkw
  constructor
  · intro hok raw
    unfold firstErrSpec at hok
    rcases h1 : firstErrArgs args with _ | r1
    · rcases h2 : firstErrArgs (kwargs.map Prod.snd) with _ | r2
      · rw [h1] at hargs; rw [h2] at hkw
        unfold toolWrapper
        rw [hargs, hkw]
        rfl
      · rw [h1, h2] at hok; cases hok
    · rw [h1] at hok; cases hok
  · intro r hr raw
    unfold firstErrSpec at hr
    rcases h1 : firstErrArgs args with _ | r1
    · rcases h2 : firstErrArgs (kwargs.map Prod.snd) with _ | r2
      · rw [h1, h2] at hr; cases hr
      · rw [h1, h2] at hr
        rw [h1] at hargs; rw [h2] at hkw
        unfold toolWrapper
        rw [hargs, hkw]
        cases hr; rfl
    · rw [h1] at hr
      rw [h1] at hargs
      unfold toolWrapper
      rw [hargs]
      cases hr; rfl

/-- Witness for C1: the ok path at `concat_tool(ok("success"), "test")`
and the short-circuit path at `concat_tool(err(E), "t")`. -/
theorem c1_tool_wrapper_witness :
    toolWrapper rawConcatTool
        [.res (okV (.str "success")), .val (.str "test")] [] =
      okV (.str "success-test") ∧
    toolWrapper rawConcatTool
        [.res (errV sampleErr), .val (.str "t")] [] =
      errV sampleErr := by
  constructor
  · have h := (c1_tool_wrapper
      [.res (okV (.str "success")), .val (.str "test")] []
      (by simp)).1 rfl rawConcatTool
    exact h.trans rfl
  · exact (c1_tool_wrapper [.res (errV sampleErr), .val (.str "t")] []
      (by simp)).2 (errV sampleErr) rfl rawConcatTool

end ToolAgentDemo

namespace ToolAgentDemo

/-- Expressions of the workflow statement language: the shapes that
`WorkflowTransformer` and `DependencyAnalyzer` inspect.  `call m args`
is a direct `self.<m>(args)` call (the receiver is always `self` in the
workflows the engine handles); `binor` is `a | b` (`ast.BinOp` with
`ast.BitOr`). -/
inductive Expr where
  | const (v : PyVal) : Expr
  | name (x : String) : Expr
  | call (method : String) (args : List Expr) : Expr
  | binor (a b : Expr) : Expr

/-- Statements of the workflow body: assignment to a single name, bare
expression statement, yield statement (`ast.Expr` wrapping an
`ast.Yield`), and return. -/
inductive Stmt where
  | assign (x : String) (e : Expr) : Stmt
  | expr (e : Expr) : Stmt
  | yieldStmt (e : Expr) : Stmt
  | ret (e : Expr) : Stmt

/-- An agent's tool registry: tool name to raw callable, as
`self._tools` maps names to (wrapped) methods. -/
def Tools : Type := List (String × RawTool)

/-- Embeds `WorkflowTransformer.is_tool_call`: a call is a tool call iff
it is a direct `self.<name>(...)` call and `<name>` is in the tool
set. -/
def isToolCall (tools : Tools) : Expr → Bool
  | .call m _ => (tools.lookup m).isSome
  | _ => false

/-- Embeds `WorkflowTransformer.visit_Assign` / `visit_Return`
(`agent.py` lines 141–175) on a single statement: an assignment whose
value is a `|` expression or a tool call is followed by `yield <target>`;
a return of a tool call is preceded by `yield <the call>`; everything
else (including the yield statements a previous pass introduced, which
no visitor rewrites) is left untouched. -/
def transformStmt (tools : Tools) : Stmt → List Stmt
  | .assign x (.binor a b) =>
    [.assign x (.binor a b), .yieldStmt (.name x)]
  | .assign x (.call m args) =>
    if isToolCall tools (.call m args) then
      [.assign x (.call m args), .yieldStmt (.name x)]
    else [.assign x (.call m args)]
  | .ret (.call m args) =>
    if isToolCall tools (.call m args) then
      [.yieldStmt (.call m args), .ret (.call m args)]
    else [.ret (.call m args)]
  | s => [s]

/-- The transformer applied to a workflow body (the module's statement
list, each visit result spliced in place). -/
def transformStmts (tools : Tools) (body : List Stmt) : List Stmt :=
  body.flatMap (transformStmt tools)

mutual

/-- Evaluation of an expression inside a (transformed) workflow body:
name lookup in the local environment, tool calls through the tool
wrapper (the registry holds the wrapped methods), and `|` through
`Result.__or__`.  Errors model the exception propagating out of the
generator. -/
def evalExpr (tools : Tools) (env : List (String × Arg)) :
    Expr → Except PyVal Arg
  | .const v => .ok (.val v)
  | .name x =>
    match env.lookup x with
    | some a => .ok a
    | Option.none => .error (.exn "NameError" x)
  | .call m args =>
    match tools.lookup m with
    | Option.none => .error (.exn "AttributeError" m)
    | some raw =>
      match evalArgs tools env args with
      | .error err => .error err
      | .ok as => .ok (.res (toolWrapper raw as []))
  | .binor a b =>
    match evalExpr tools env a with
    | .error err => .error err
    | .ok va =>
      match evalExpr tools env b with
      | .error err => .error err
      | .ok vb =>
        match va, vb with
        | .res ra, .res rb => .ok (.res (ResultV.or ra rb))
        | _, _ => .error (.exn "TypeError" "unsupported operand for |")

/-- Left-to-right evaluation of call arguments. -/
def evalArgs (tools : Tools) (env : List (String × Arg)) :
    List Expr → Except PyVal (List Arg)
  | [] => .ok []
  | e :: es =>
    match evalExpr tools env e with
    | .error err => .error err
    | .ok a =>
      match evalArgs tools env es with
      | .error err => .error err
      | .ok as => .ok (a :: as)

end

/-- Outcome of running a workflow body to exhaustion: the list of
yielded elements in order, the value of an executed `return` statement
(`Option.none` when the body fell off the end), and the final local
environment (the generator's local state, threaded explicitly); or the
yielded prefix together with a raised exception. -/
inductive RunOut where
  | finished (trace : List Arg) (ret : Option Arg)
      (env : List (String × Arg)) : RunOut
  | raised (trace : List Arg) (e : PyVal) : RunOut

/-- Runs a statement list: assignments extend the environment, bare
expressions evaluate for effect, yield statements record their value,
return stops execution. -/
def runStmts (tools : Tools) : List Stmt → List (String × Arg) → RunOut
  | [], env => .finished [] Option.none env
  | .assign x e :: rest, env =>
    match evalExpr tools env e with
    | .error err => .raised [] err
    | .ok a => runStmts tools rest ((x, a) :: env)
  | .expr e :: rest, env =>
    match evalExpr tools env e with
    | .error err => .raised [] err
    | .ok _ => runStmts tools rest env
  | .yieldStmt e :: rest, env =>
    match evalExpr tools env e with
    | .error err => .raised [] err
    | .ok a =>
      match runStmts tools rest env with
      | .finished tr r envF => .finished (a :: tr) r envF
      | .raised tr err => .raised (a :: tr) err
  | .ret e :: _, env =>
    match evalExpr tools env e with
    | .error err => .raised [] err
    | .ok a => .finished [] (some a) env

/-- Output of draining a workflow iterator to completion
(`api/executor.py` lines 186–200). -/
inductive DrainOut where
  | errorOut (e : PyVal) : DrainOut
  | finalOut (v : PyVal) : DrainOut
  | resultsOut (vs : List PyVal) : DrainOut
  | raisedOut (e : PyVal) : DrainOut

/-- Embeds the non-stepwise drive loop: `Result` elements update
`final_result` (terminating on the first err by printing
`str(result.error)`), non-`Result` elements are appended to `results`;
at the end the final `Result`'s unwrapped value is returned if one was
seen, else the collected list. -/
def drainElems : List Arg → Option ResultV → List PyVal → DrainOut
  | [], final, results =>
    match final with
    | some r => .finalOut r.unwrap
    | Option.none => .resultsOut results
  | .res r :: rest, _final, results =>
    if r.is_err then .errorOut r.error
    else drainElems rest (some r) results
  | .val v :: rest, final, results => drainElems rest final (results ++ [v])

/-- Runs a (transformed) workflow body from an empty environment and
drains it: the executor's "execute to completion" path.  When the
iteration raises, the elements yielded before the exception are
processed first (terminating early on an err Result); otherwise the
exception surfaces as `{'error': str(e)}`. -/
def drainRun (tools : Tools) (body : List Stmt) : DrainOut :=
  match runStmts tools body [] with
  | .finished tr _ _ => drainElems tr Option.none []
  | .raised tr e =>
    match firstErrArgs tr with
    | some r => .errorOut r.error
    | Option.none => .raisedOut e

end ToolAgentDemo

namespace ToolAgentDemo

/-- Raw `add(a, b)` tool of the calculator scenario. -/
def rawAdd : RawTool := fun args _kwargs =>
  match args with
  | [.val (.int a), .val (.int b)] => .ok (.int (a + b))
  | _ => .error (.exn "TypeError" "unsupported operand")

/-- Raw `multiply(a, b)` tool of the calculator scenario. -/
def rawMultiply : RawTool := fun args _kwargs =>
  match args with
  | [.val (.int a), .val (.int b)] => .ok (.int (a * b))
  | _ => .error (.exn "TypeError" "unsupported operand")

/-- The calculator agent's tool registry. -/
def calcTools : Tools := [("add", rawAdd), ("multiply", rawMultiply)]

/-- The calculator workflow body:
`s = self.add(1, 2); return self.multiply(s, 3)`. -/
def calcBody : List Stmt :=
  [.assign "s" (.call "add" [.const (.int 1), .const (.int 2)]),
   .ret (.call "multiply" [.name "s", .const (.int 3)])]

/-- **C2.** For the calculator workflow `s = self.add(1,2); return
self.multiply(s,3)`: the transformer rewrites the assignment to
`s = self.add(1,2); yield s` and the return to
`yield self.multiply(s,3); return self.multiply(s,3)`; iterating the
transformed workflow yields exactly two elements, the ok Result with
value 3 from `add` followed by the ok Result with value 9 from
`multiply`; the workflow returns the Result carrying 9, and draining
the stream produces the final value 9. -/
theorem c2_calculator_workflow :
    transformStmts calcTools calcBody =
      [.assign "s" (.call "add" [.const (.int 1), .const (.int 2)]),
       .yieldStmt (.name "s"),
       .yieldStmt (.call "multiply" [.name "s", .const (.int 3)]),
       .ret (.call "multiply" [.name "s", .const (.int 3)])] ∧
    runStmts calcTools (transformStmts calcTools calcBody) [] =
      .finished [.res (okV (.int 3)), .res (okV (.int 9))]
        (some (.res (okV (.int 9))))
        [("s", .res (okV (.int 3)))] ∧
    drainRun calcTools (transformStmts calcTools calcBody) =
      .finalOut (.int 9) := by
  exact ⟨rfl, rfl, rfl⟩

end ToolAgentDemo

namespace ToolAgentDemo

/-- Whether a statement is a yield statement. -/
def isYieldStmt : Stmt → Bool
  | .yieldStmt _ => true
  | _ => false

/-- Number of yield statements in a body. -/
def yieldCount (body : List Stmt) : Nat := body.countP isYieldStmt

/-- Whether a statement triggers the transformer: an assignment of a
`|` expression, an assignment of a tool call, or a return of a tool
call. -/
def isTrigger (tools : Tools) : Stmt → Bool
  | .assign _ (.binor _ _) => true
  | .assign _ (.call m args) => isToolCall tools (.call m args)
  | .ret (.call m args) => isToolCall tools (.call m args)
  | _ => false

/-- Number of trigger statements in a body. -/
def triggerCount (tools : Tools) (body : List Stmt) : Nat :=
  body.countP (isTrigger tools)

theorem transformStmt_yieldCount (tools : Tools) (s : Stmt) :
    yieldCount (transformStmt tools s) =
      yieldCount [s] + triggerCount tools [s] := by
  cases s with
  | assign x e =>
    cases e with
    | const v => rfl
    | name y => rfl
    | call m args =>
      by_cases h : isToolCall tools (.call m args) <;>
        simp [transformStmt, h, yieldCount, triggerCount, isYieldStmt,
          isTrigger, List.countP_cons]
    | binor a b => rfl
  | expr e => rfl
  | yieldStmt e => rfl
  | ret e =>
    cases e with
    | const v => rfl
    | name y => rfl
    | call m args =>
      by_cases h : isToolCall tools (.call m args) <;>
        simp [transformStmt, h, yieldCount, triggerCount, isYieldStmt,
          isTrigger, List.countP_cons]
    | binor a b => rfl

theorem transformStmt_triggerCount (tools : Tools) (s : Stmt) :
    triggerCount tools (transformStmt tools s) = triggerCount tools [s] := by
  cases s with
  | assign x e =>
    cases e with
    | const v => rfl
    | name y => rfl
    | call m args =>
      by_cases h : isToolCall tools (.call m args) <;>
        simp [transformStmt, h, triggerCount, isTrigger, List.countP_cons]
    | binor a b =>
      simp [transformStmt, isTrigger, triggerCount, List.countP_cons]
  | expr e => rfl
  | yieldStmt e => rfl
  | ret e =>
    cases e with
    | const v => rfl
    | name y => rfl
    | call m args =>
      by_cases h : isToolCall tools (.call m args) <;>
        simp [transformStmt, h, triggerCount, isTrigger, List.countP_cons]
    | binor a b => rfl

theorem transformStmts_yieldCount (tools : Tools) :
    ∀ body : List Stmt,
    yieldCount (transformStmts tools body) =
      yieldCount body + triggerCount tools body
  | [] => rfl
  | s :: body => by
    have h1 := transformStmt_yieldCount tools s
    have h2 := transformStmts_yieldCount tools body
    show yieldCount (transformStmt tools s ++ transformStmts tools body) = _
    rw [show (s :: body : List Stmt) = [s] ++ body from rfl]
    simp only [yieldCount, triggerCount, List.countP_append] at h1 h2 ⊢
    omega

theorem transformStmts_triggerCount (tools : Tools) :
    ∀ body : List Stmt,
    triggerCount tools (transformStmts tools body) = triggerCount tools body
  | [] => rfl
  | s :: body => by
    have h1 := transformStmt_triggerCount tools s
    have h2 := transformStmts_triggerCount tools body
    show triggerCount tools (transformStmt tools s ++ transformStmts tools body) = _
    rw [show (s :: body : List Stmt) = [s] ++ body from rfl]
    simp only [triggerCount, List.countP_append] at h1 h2 ⊢
    omega

end ToolAgentDemo

namespace ToolAgentDemo

/-- **C8 (counterexample).** The claim that re-applying the transformer
to already-transformed source adds no new yield statements is false: on
the calculator body the first pass produces 2 yields, and the second
pass re-expands the tool-call assignment and the tool-call return,
producing 4 yields and a different statement list. -/
theorem c8_counterexample :
    yieldCount (transformStmts calcTools calcBody) = 2 ∧
    yieldCount
      (transformStmts calcTools (transformStmts calcTools calcBody)) = 4 ∧
    transformStmts calcTools (transformStmts calcTools calcBody) ≠
      transformStmts calcTools calcBody := by
  refine ⟨rfl, rfl, fun h => ?_⟩
  have hlen := congrArg List.length h
  have h6 : (transformStmts calcTools
      (transformStmts calcTools calcBody)).length = 6 := rfl
  have h4 : (transformStmts calcTools calcBody).length = 4 := rfl
  rw [h6, h4] at hlen
  cases hlen

/-- **C8 (amended).** The transformer is a deterministic function of the
source, and the yield statements introduced by the first pass are left
untouched by a second pass; but a second pass re-expands every trigger
statement (tool-call assignment, combine-assignment, tool-call return)
again, adding exactly one new yield per trigger — so it is not a no-op
on the statement structure whenever the body contains a trigger. -/
theorem c8_amended (tools : Tools) (body : List Stmt) :
    (∀ e, transformStmt tools (.yieldStmt e) = [.yieldStmt e]) ∧
    yieldCount (transformStmts tools (transformStmts tools body)) =
      yieldCount (transformStmts tools body) + triggerCount tools body ∧
    (triggerCount tools body ≠ 0 →
      transformStmts tools (transformStmts tools body) ≠
        transformStmts tools body) := by
  refine ⟨fun e => rfl, ?_, ?_⟩
  · rw [transformStmts_yieldCount tools (transformStmts tools body),
      transformStmts_triggerCount tools body]
  · intro htr heq
    have hy := transformStmts_yieldCount tools (transformStmts tools body)
    rw [heq, transformStmts_triggerCount tools body] at hy
    omega

/-- Witness for C8 (amended): at the calculator body, the second pass
adds one yield per trigger (2 + 2 = 4) and changes the body. -/
theorem c8_amended_witness :
    yieldCount
        (transformStmts calcTools (transformStmts calcTools calcBody)) =
      yieldCount (transformStmts calcTools calcBody) +
        triggerCount calcTools calcBody ∧
    transformStmts calcTools (transformStmts calcTools calcBody) ≠
      transformStmts calcTools calcBody := by
  refine ⟨(c8_amended calcTools calcBody).2.1, ?_⟩
  exact (c8_amended calcTools calcBody).2.2 (by
    intro h
    have h2 : triggerCount calcTools calcBody = 2 := rfl
    rw [h2] at h
    cases h)

end ToolAgentDemo

namespace ToolAgentDemo

/-- Most-significant-first decimal digit list of a natural number: the
list `Nat.toDigitsCore` produces.  Used to reason about the
`node_<k>` / `edge_<k>` / port id strings the serializer builds with
Python f-strings. -/
def digitsStr (n : Nat) : List Char :=
  if _h : n < 10 then [Nat.digitChar n]
  else digitsStr (n / 10) ++ [Nat.digitChar (n % 10)]
termination_by n
decreasing_by exact Nat.div_lt_self (by omega) (by omega)

theorem digitsStr_lt (n : Nat) (h : n < 10) :
    digitsStr n = [Nat.digitChar n] := by
  rw [digitsStr, dif_pos h]

theorem digitsStr_ge (n : Nat) (h : ¬ n < 10) :
    digitsStr n = digitsStr (n / 10) ++ [Nat.digitChar (n % 10)] := by
  rw [digitsStr, dif_neg h]

theorem toDigitsCore_eq_digitsStr :
    ∀ (f n : Nat) (acc : List Char), n < f →
    Nat.toDigitsCore 10 f n acc = digitsStr n ++ acc := by
  intro f
  induction f with
  | zero => intro n acc h; omega
  | succ f ih =>
    intro n acc h
    rw [show Nat.toDigitsCore 10 (f + 1) n acc =
        (if n / 10 = 0 then Nat.digitChar (n % 10) :: acc
         else Nat.toDigitsCore 10 f (n / 10)
           (Nat.digitChar (n % 10) :: acc)) from rfl]
    by_cases h0 : n / 10 = 0
    · have hn : n < 10 := by
        have hmod := Nat.mod_lt n (show 0 < 10 by omega)
        have hdm := Nat.div_add_mod n 10
        omega
      rw [if_pos h0, digitsStr_lt n hn, Nat.mod_eq_of_lt hn]
      rfl
    · have hn : ¬ n < 10 := by
        intro hlt
        exact h0 (Nat.div_eq_of_lt hlt)
      rw [if_neg h0]
      have hdiv : n / 10 < f := by
        have h1 : n / 10 < n := Nat.div_lt_self (by omega) (by omega)
        omega
      rw [ih (n / 10) (Nat.digitChar (n % 10) :: acc) hdiv]
      rw [digitsStr_ge n hn, List.append_assoc, List.singleton_append]

theorem repr_data (n : Nat) : (Nat.repr n).data = digitsStr n := by
  show (Nat.toDigits 10 n).asString.data = digitsStr n
  rw [Nat.toDigits, toDigitsCore_eq_digitsStr (n + 1) n [] (by omega)]
  simp [List.asString]

theorem digitChar_ne_colon (n : Nat) : Nat.digitChar n ≠ ':' := by
  rcases Nat.lt_or_ge n 16 with h | h
  · interval_cases n <;> decide
  · unfold Nat.digitChar
    repeat rw [if_neg (by omega)]
    decide

theorem digitsStr_ne_colon (n : Nat) : ∀ c ∈ digitsStr n, c ≠ ':' := by
  induction n using Nat.strong_induction_on with
  | _ n ih =>
    intro c hc
    by_cases h : n < 10
    · rw [digitsStr_lt n h] at hc
      simp at hc
      rw [hc]; exact digitChar_ne_colon n
    · rw [digitsStr_ge n h] at hc
      rcases List.mem_append.1 hc with h1 | h1
      · exact ih (n / 10) (Nat.div_lt_self (by omega) (by omega)) c h1
      · simp at h1
        rw [h1]; exact digitChar_ne_colon (n % 10)

theorem digitsStr_ne_nil (n : Nat) : digitsStr n ≠ [] := by
  by_cases h : n < 10
  · rw [digitsStr_lt n h]; simp
  · rw [digitsStr_ge n h]; simp

theorem digitChar_inj_lt : ∀ m < 10, ∀ n < 10,
    Nat.digitChar m = Nat.digitChar n → m = n := by decide

theorem append_singleton_inj {α : Type} :
    ∀ (l1 l2 : List α) (a b : α), l1 ++ [a] = l2 ++ [b] → l1 = l2 ∧ a = b
  | [], [], a, b, h => by
    simp only [List.nil_append, List.cons.injEq] at h
    exact ⟨rfl, h.1⟩
  | [], x :: l2, a, b, h => by
    have := congrArg List.length h
    simp only [List.length_append, List.length_cons, List.length_nil] at this
    omega
  | x :: l1, [], a, b, h => by
    have := congrArg List.length h
    simp only [List.length_append, List.length_cons, List.length_nil] at this
    omega
  | x :: l1, y :: l2, a, b, h => by
    simp only [List.cons_append, List.cons.injEq] at h
    rcases h with ⟨hxy, h⟩
    rcases append_singleton_inj l1 l2 a b h with ⟨h1, h2⟩
    exact ⟨by rw [hxy, h1], h2⟩

theorem digitsStr_inj : ∀ m n : Nat, digitsStr m = digitsStr n → m = n := by
  intro m
  induction m using Nat.strong_induction_on with
  | _ m ih =>
    intro n h
    by_cases hm : m < 10 <;> by_cases hn : n < 10
    · rw [digitsStr_lt m hm, digitsStr_lt n hn] at h
      simp at h
      exact digitChar_inj_lt m hm n hn h
    · rw [digitsStr_lt m hm, digitsStr_ge n hn] at h
      have hlen := congrArg List.length h
      simp only [List.length_append, List.length_cons, List.length_nil]
        at hlen
      cases hd : digitsStr (n / 10) with
      | nil => exact absurd hd (digitsStr_ne_nil (n / 10))
      | cons c cs => rw [hd] at hlen; simp at hlen
    · rw [digitsStr_ge m hm, digitsStr_lt n hn] at h
      have hlen := congrArg List.length h
      simp only [List.length_append, List.length_cons, List.length_nil]
        at hlen
      cases hd : digitsStr (m / 10) with
      | nil => exact absurd hd (digitsStr_ne_nil (m / 10))
      | cons c cs => rw [hd] at hlen; simp at hlen
    · rw [digitsStr_ge m hm, digitsStr_ge n hn] at h
      rcases append_singleton_inj _ _ _ _ h with ⟨h1, h2⟩
      have hdiv := ih (m / 10) (Nat.div_lt_self (by omega) (by omega))
        (n / 10) h1
      have hmod := digitChar_inj_lt (m % 10) (Nat.mod_lt m (by omega))
        (n % 10) (Nat.mod_lt n (by omega)) h2
      omega

theorem nat_repr_inj {m n : Nat} (h : Nat.repr m = Nat.repr n) : m = n :=
  digitsStr_inj m n (by rw [← repr_data, ← repr_data, h])

theorem nat_repr_ne_colon (n : Nat) : ∀ c ∈ (Nat.repr n).data, c ≠ ':' := by
  rw [repr_data]; exact digitsStr_ne_colon n

end ToolAgentDemo

namespace ToolAgentDemo

theorem takeWhile_append_stop (p : Char → Bool) :
    ∀ (l r : List Char), (∀ c ∈ l, p c = true) → ∀ c0 : Char, p c0 = false →
    (l ++ c0 :: r).takeWhile p = l
  | [], r, _, c0, hc0 => by simp [List.takeWhile, hc0]
  | c :: l, r, h, c0, hc0 => by
    have hc : p c = true := h c (by simp)
    simp only [List.cons_append, List.takeWhile_cons, hc]
    rw [takeWhile_append_stop p l r (fun x hx => h x (List.mem_cons_of_mem _ hx))
      c0 hc0]
    simp

theorem colon_split_unique :
    ∀ (l1 l2 r1 r2 : List Char), (∀ c ∈ l1, c ≠ ':') → (∀ c ∈ l2, c ≠ ':') →
    l1 ++ ':' :: r1 = l2 ++ ':' :: r2 → l1 = l2 ∧ r1 = r2
  | [], [], r1, r2, _, _, h => by simpa using h
  | [], c :: l2, r1, r2, _, h2, h => by
    simp only [List.nil_append, List.cons_append, List.cons.injEq] at h
    exact absurd h.1.symm (h2 c (by simp))
  | c :: l1, [], r1, r2, h1, _, h => by
    simp only [List.nil_append, List.cons_append, List.cons.injEq] at h
    exact absurd h.1 (h1 c (by simp))
  | c :: l1, d :: l2, r1, r2, h1, h2, h => by
    simp only [List.cons_append, List.cons.injEq] at h
    rcases h with ⟨hcd, h⟩
    rcases colon_split_unique l1 l2 r1 r2
      (fun x hx => h1 x (List.mem_cons_of_mem _ hx))
      (fun x hx => h2 x (List.mem_cons_of_mem _ hx)) h with ⟨ha, hb⟩
    exact ⟨by rw [hcd, ha], hb⟩

end ToolAgentDemo

namespace ToolAgentDemo

/-- Embeds `workflow_serializer.py`, `class Port` (`id`, `name`). -/
structure Port where
  id : String
  name : String
  deriving DecidableEq

/-- Embeds `class Node`: id, type (tool name), input and output ports,
and the `{"x": ..., "y": ...}` position record (two integer fields
here). -/
structure Node where
  id : String
  type : String
  inputs : List Port
  outputs : List Port
  posX : Int
  posY : Int
  deriving DecidableEq

/-- Embeds `class Edge`: id, source output-port id, target input-port
id. -/
structure GEdge where
  id : String
  source : String
  target : String
  deriving DecidableEq

/-- Embeds `class WorkflowGraph`: the node and edge lists. -/
structure WorkflowGraph where
  nodes : List Node
  edges : List GEdge
  deriving DecidableEq

/-- Embeds `DependencyAnalyzer.FunctionCall`: called member name,
argument expressions, and the assignment target if any. -/
structure FunctionCall where
  func_name : String
  args : List Expr
  target : Option String

/-- Embeds the `DependencyAnalyzer` visitors: an assignment of a direct
`self.<m>(...)` call records an event with the target name; a bare
expression or return of such a call records one without a target; all
other statements (including yields, combine-assignments, and returns of
plain names) record nothing. -/
def analyzeStmt : Stmt → List FunctionCall
  | .assign x (.call m args) => [⟨m, args, some x⟩]
  | .expr (.call m args) => [⟨m, args, Option.none⟩]
  | .ret (.call m args) => [⟨m, args, Option.none⟩]
  | _ => []

/-- The function-call events of a workflow body, in source order. -/
def functionCalls (body : List Stmt) : List FunctionCall :=
  body.flatMap analyzeStmt

/-- Python `repr` for the constant shapes the serializer meets.  For
the strings the claims exercise (no embedded quotes or escapes) `repr`
wraps in single quotes. -/
def pyRepr : PyVal → String
  | .none => "None"
  | .int n => if n < 0 then "-" ++ Nat.repr (-n).toNat else Nat.repr n.toNat
  | .str s => "'" ++ s ++ "'"
  | .bool b => if b then "True" else "False"
  | .tuple _ => "(...)"
  | .list _ => "[...]"
  | .exn c m => c ++ "(" ++ m ++ ")"

/-- Embeds the input-port construction (`serialize_workflow` lines
54–60): one port per positional argument that is a `Name` (port name =
the identifier) or a `Constant` (port name = its repr); other argument
shapes are skipped but still consume their index. -/
def mkInputPorts (nodeId : String) (args : List Expr) : List Port :=
  args.enum.filterMap fun p =>
    match p.2 with
    | .name x => some ⟨nodeId ++ ":input:" ++ Nat.repr p.1, x⟩
    | .const v => some ⟨nodeId ++ ":input:" ++ Nat.repr p.1, pyRepr v⟩
    | _ => Option.none

/-- Embeds the literal test on a port name: Python
`name.startswith('"') or name.startswith("'")`. -/
def isLiteralName (s : String) : Bool :=
  match s.data with
  | [] => false
  | c :: _ => c == '"' || c == '\''

/-- All output ports of previously-emitted nodes whose name matches, in
emission order (the serializer's inner double loop has no `break`, so
every match is collected). -/
def matchingOutputs (prev : List Node) (nm : String) : List Port :=
  prev.flatMap fun n => n.outputs.filter fun op => op.name == nm

/-- Embeds the edge-emission loop (`serialize_workflow` lines 76–91):
for each non-literal input port, one edge per matching output port of
every previously-emitted node, with consecutive `edge_<k>` ids. -/
def mkEdgesForInputs : List Port → List Node → Nat → List GEdge
  | [], _, _ => []
  | ip :: rest, prev, ec =>
    if isLiteralName ip.name then mkEdgesForInputs rest prev ec
    else
      let es := (matchingOutputs prev ip.name).enum.map fun p =>
        GEdge.mk ("edge_" ++ Nat.repr (ec + p.1)) p.2.id ip.id
      es ++ mkEdgesForInputs rest prev (ec + es.length)

/-- The node built for the `k`-th function-call event: fresh
`node_<k>` id, the call's name as type, input ports from the
arguments, one output port named after the assignment target (none for
bare calls and returns), and the advisory position
`x = 100 + (k+1)*200, y = 100` (the counter is incremented before the
position is computed). -/
def mkNode (k : Nat) (fc : FunctionCall) : Node :=
  let nodeId := "node_" ++ Nat.repr k
  { id := nodeId
    type := fc.func_name
    inputs := mkInputPorts nodeId fc.args
    outputs :=
      match fc.target with
      | some t => [⟨nodeId ++ ":output:0", t⟩]
      | Option.none => []
    posX := 100 + ((k : Int) + 1) * 200
    posY := 100 }

/-- Embeds the main loop of `WorkflowSerializer.serialize_workflow`:
fold over the function-call events threading the node counter, edge
counter, and the accumulated node and edge lists. -/
def serializeLoop :
    List FunctionCall → Nat → Nat → List Node → List GEdge → WorkflowGraph
  | [], _, _, nodes, edges => ⟨nodes, edges⟩
  | fc :: rest, nc, ec, nodes, edges =>
    let node := mkNode nc fc
    let es := mkEdgesForInputs node.inputs nodes ec
    serializeLoop rest (nc + 1) (ec + es.length) (nodes ++ [node]) (edges ++ es)

/-- Embeds `WorkflowSerializer.serialize_workflow` on a parsed body. -/
def serializeWorkflow (body : List Stmt) : WorkflowGraph :=
  serializeLoop (functionCalls body) 0 0 [] []

/-- The nodes the serializer emits for an event list starting at
counter `k`. -/
def nodesOf : List FunctionCall → Nat → List Node
  | [], _ => []
  | fc :: rest, k => mkNode k fc :: nodesOf rest (k + 1)

/-- Prefix-decomposed form of the serializer's edge emission: edges of
each node are computed against the nodes emitted before it. -/
def edgesGo : List Node → List Node → Nat → List GEdge
  | [], _, _ => []
  | n :: rest, prev, ec =>
    let es := mkEdgesForInputs n.inputs prev ec
    es ++ edgesGo rest (prev ++ [n]) (ec + es.length)

theorem serializeLoop_spec :
    ∀ (evs : List FunctionCall) (nc ec : Nat) (nodes : List Node)
      (edges : List GEdge),
    serializeLoop evs nc ec nodes edges =
      ⟨nodes ++ nodesOf evs nc, edges ++ edgesGo (nodesOf evs nc) nodes ec⟩
  | [], nc, ec, nodes, edges => by simp [serializeLoop, nodesOf, edgesGo]
  | fc :: rest, nc, ec, nodes, edges => by
    rw [show serializeLoop (fc :: rest) nc ec nodes edges =
        serializeLoop rest (nc + 1)
          (ec + (mkEdgesForInputs (mkNode nc fc).inputs nodes ec).length)
          (nodes ++ [mkNode nc fc])
          (edges ++ mkEdgesForInputs (mkNode nc fc).inputs nodes ec) from rfl]
    rw [serializeLoop_spec rest (nc + 1)
      (ec + (mkEdgesForInputs (mkNode nc fc).inputs nodes ec).length)
      (nodes ++ [mkNode nc fc])
      (edges ++ mkEdgesForInputs (mkNode nc fc).inputs nodes ec)]
    rw [show nodesOf (fc :: rest) nc = mkNode nc fc :: nodesOf rest (nc + 1)
      from rfl]
    rw [show edgesGo (mkNode nc fc :: nodesOf rest (nc + 1)) nodes ec =
        mkEdgesForInputs (mkNode nc fc).inputs nodes ec ++
          edgesGo (nodesOf rest (nc + 1)) (nodes ++ [mkNode nc fc])
            (ec + (mkEdgesForInputs (mkNode nc fc).inputs nodes ec).length)
      from rfl]
    simp [List.append_assoc]

theorem serializeWorkflow_eq (body : List Stmt) :
    serializeWorkflow body =
      ⟨nodesOf (functionCalls body) 0,
       edgesGo (nodesOf (functionCalls body) 0) [] 0⟩ := by
  rw [serializeWorkflow, serializeLoop_spec]
  simp

end ToolAgentDemo

namespace ToolAgentDemo

/-- Spec-side edge emission for one input port, written from the
amended claim C9: a literal-named port receives no edge; a non-literal
port receives one edge per output port with the same name among all
previously emitted nodes, in order, with consecutive edge ids. -/
def specC9PortEdges (prev : List Node) (ip : Port) (ec : Nat) : List GEdge :=
  if isLiteralName ip.name then []
  else
    ((prev.flatMap Node.outputs).filter fun op => op.name == ip.name).enum.map
      fun p => GEdge.mk ("edge_" ++ Nat.repr (ec + p.1)) p.2.id ip.id

/-- Spec-side edge emission for a node's input-port list. -/
def specC9NodeEdges : List Port → List Node → Nat → List GEdge
  | [], _, _ => []
  | ip :: rest, prev, ec =>
    specC9PortEdges prev ip ec ++
      specC9NodeEdges rest prev (ec + (specC9PortEdges prev ip ec).length)

/-- Spec-side edge emission scanning nodes in emission order. -/
def specC9Edges : List Node → List Node → Nat → List GEdge
  | [], _, _ => []
  | n :: rest, prev, ec =>
    specC9NodeEdges n.inputs prev ec ++
      specC9Edges rest (prev ++ [n])
        (ec + (specC9NodeEdges n.inputs prev ec).length)

theorem matchingOutputs_eq (prev : List Node) (nm : String) :
    matchingOutputs prev nm =
      (prev.flatMap Node.outputs).filter fun op => op.name == nm := by
  induction prev with
  | nil => rfl
  | cons n rest ih =>
    show n.outputs.filter _ ++ matchingOutputs rest nm = _
    rw [ih, List.flatMap_cons, List.filter_append]

theorem mkEdgesForInputs_cons (ip : Port) (rest : List Port)
    (prev : List Node) (ec : Nat) :
    mkEdgesForInputs (ip :: rest) prev ec =
      (if isLiteralName ip.name then mkEdgesForInputs rest prev ec
       else
         ((matchingOutputs prev ip.name).enum.map fun p =>
           GEdge.mk ("edge_" ++ Nat.repr (ec + p.1)) p.2.id ip.id) ++
           mkEdgesForInputs rest prev
             (ec + ((matchingOutputs prev ip.name).enum.map fun p =>
               GEdge.mk ("edge_" ++ Nat.repr (ec + p.1)) p.2.id ip.id).length)) :=
  rfl

theorem mkEdgesForInputs_eq_spec :
    ∀ (ports : List Port) (prev : List Node) (ec : Nat),
    mkEdgesForInputs ports prev ec = specC9NodeEdges ports prev ec
  | [], _, _ => rfl
  | ip :: rest, prev, ec => by
    rw [mkEdgesForInputs_cons]
    by_cases hl : isLiteralName ip.name
    · rw [if_pos hl, specC9NodeEdges, specC9PortEdges, if_pos hl]
      simp [mkEdgesForInputs_eq_spec rest prev ec]
    · rw [if_neg hl, specC9NodeEdges, specC9PortEdges, if_neg hl,
        matchingOutputs_eq, mkEdgesForInputs_eq_spec rest prev _]

theorem edgesGo_eq_spec :
    ∀ (pending prev : List Node) (ec : Nat),
    edgesGo pending prev ec = specC9Edges pending prev ec
  | [], _, _ => rfl
  | n :: rest, prev, ec => by
    rw [show edgesGo (n :: rest) prev ec =
        mkEdgesForInputs n.inputs prev ec ++
          edgesGo rest (prev ++ [n])
            (ec + (mkEdgesForInputs n.inputs prev ec).length) from rfl]
    rw [specC9Edges, mkEdgesForInputs_eq_spec n.inputs prev ec,
      edgesGo_eq_spec rest (prev ++ [n]) _]

/-- Counterexample body for C9: `x = self.t1("a"); x = self.t2("b");
y = self.t3(x)` — the name `x` is produced twice, so the third node's
input port receives two edges. -/
def cexC9Body : List Stmt :=
  [.assign "x" (.call "t1" [.const (.str "a")]),
   .assign "x" (.call "t2" [.const (.str "b")]),
   .assign "y" (.call "t3" [.name "x"])]

/-- **C9 (counterexample).** The claim that every non-literal input
port is targeted by at most one edge (sourced at the first matching
previously-emitted output) is false: for the body `x = self.t1("a");
x = self.t2("b"); y = self.t3(x)`, the serializer emits two edges, both
targeting the third node's single non-literal input port
`node_2:input:0`, one from each of the two earlier outputs named `x`
(the inner search loop has no break). -/
theorem c9_counterexample :
    (serializeWorkflow cexC9Body).edges =
      [GEdge.mk "edge_0" "node_0:output:0" "node_2:input:0",
       GEdge.mk "edge_1" "node_1:output:0" "node_2:input:0"] ∧
    (serializeWorkflow cexC9Body).nodes.map Node.inputs =
      [[Port.mk "node_0:input:0" "'a'"],
       [Port.mk "node_1:input:0" "'b'"],
       [Port.mk "node_2:input:0" "x"]] ∧
    isLiteralName "x" = false ∧
    ((serializeWorkflow cexC9Body).edges.countP
      fun e => e.target == "node_2:input:0") = 2 := by
  refine ⟨by decide, by decide, by decide, by decide⟩

/-- **C9 (amended).** In the graph produced by `serialize_workflow`,
scanning nodes in emission order, every literal (quoted-name) input
port receives no edge, and every non-literal input port is targeted by
one edge per previously-emitted output port whose name matches — all
matches in order, not just the first — with consecutive edge ids: the
serializer's edge list equals this specification exactly. -/
theorem c9_amended (body : List Stmt) :
    (serializeWorkflow body).edges =
      specC9Edges (serializeWorkflow body).nodes [] 0 := by
  rw [serializeWorkflow_eq]
  exact edgesGo_eq_spec (nodesOf (functionCalls body) 0) [] 0

end ToolAgentDemo

namespace ToolAgentDemo

/-- Embeds `edge.source.split(':')[0]` / `edge.target.split(':')[0]`:
the node id is the part of a port id before the first colon. -/
def portParent (s : String) : String := ⟨s.data.takeWhile fun c => c != ':'⟩

/-- Embeds `input_vars`: port id → port name over every node's input
ports (`deserialize_workflow` lines 129–131). -/
def inputVars (g : WorkflowGraph) : List (String × String) :=
  g.nodes.flatMap fun n => n.inputs.map fun p => (p.id, p.name)

/-- Embeds `output_vars`: port id → port name over every node's output
ports. -/
def outputVars (g : WorkflowGraph) : List (String × String) :=
  g.nodes.flatMap fun n => n.outputs.map fun p => (p.id, p.name)

/-- Insertion-ordered deduplication, modelling the per-target `set` of
dependency node ids (`dependencies[target].add(source)`).  CPython
iterates a set in an unspecified order; the claims proved here are
insensitive to that order, and this model fixes insertion order. -/
def dedupGo : List String → List String → List String
  | _, [] => []
  | seen, x :: rest =>
    if seen.contains x then dedupGo seen rest
    else x :: dedupGo (x :: seen) rest

/-- Insertion-ordered deduplication: the first occurrence of each id is
kept (the Python code collects dependency ids one by one, skipping ids
already collected). -/
def dedupKeepFirst (l : List String) : List String := dedupGo [] l

/-- The dependency node ids of `nid`: the source nodes of the edges
targeting `nid`'s ports (`deserialize_workflow` lines 136–141). -/
def depsOf (g : WorkflowGraph) (nid : String) : List String :=
  dedupKeepFirst
    ((g.edges.filter fun e => portParent e.target == nid).map
      fun e => portParent e.source)

/-- Accumulator pass of the numeric parse of a port name. -/
def digitsVal : List Char → Nat → Option Nat
  | [], acc => some acc
  | c :: cs, acc =>
    if c.isDigit then digitsVal cs (acc * 10 + (c.toNat - 48))
    else Option.none

/-- Numeric parse of a port name: `int(text)` succeeds exactly on
nonempty all-digit strings (written by structural recursion on the
character list so that concrete instances reduce). -/
def strToNat? (s : String) : Option Nat :=
  match s.data with
  | [] => Option.none
  | c :: cs => digitsVal (c :: cs) 0

/-- Model of pasting an argument's text into the regenerated source and
re-parsing it: a quoted name parses back to a string constant, an
all-digit name to an integer constant, anything else to an
identifier. -/
def parseArgText (s : String) : Expr :=
  if isLiteralName s then .const (.str ⟨(s.data.drop 1).dropLast⟩)
  else
    match strToNat? s with
    | some n => .const (.int n)
    | Option.none => .name s

/-- Embeds the per-node emission of `process_node` (lines 158–172):
arguments are the literal port names or the `input_vars` entry for the
port id; with an output the line is `<output_var> = self.<type>(...)`,
without one a bare `self.<type>(...)`. -/
def nodeStmt (g : WorkflowGraph) (n : Node) : Stmt :=
  let args := n.inputs.map fun ip =>
    if isLiteralName ip.name then parseArgText ip.name
    else parseArgText (((inputVars g).lookup ip.id).getD ip.name)
  match n.outputs with
  | [] => .expr (.call n.type args)
  | op :: _ =>
    .assign (((outputVars g).lookup op.id).getD op.name) (.call n.type args)

/-- Embeds `process_node`: return if already processed; look the node
up by id (a missing id would raise `StopIteration` in Python; it is
never hit for serializer-produced graphs and is modelled as a no-op);
recursively process the dependencies first (the fold over the
dependency list embeds the mutual recursion with `process_deps`); then
append the node's statement and mark the node processed.  The fuel
bounds the recursion depth (Python's call stack);
`deserializeWorkflow` supplies more fuel than any acyclic graph can
consume. -/
def processNode (g : WorkflowGraph) :
    Nat → List String × List Stmt → String → List String × List Stmt
  | 0, acc, _ => acc
  | fuel + 1, acc, nid =>
    if acc.1.contains nid then acc
    else
      match g.nodes.find? fun n => n.id == nid with
      | Option.none => acc
      | some node =>
        let acc1 := (depsOf g nid).foldl
          (fun a d => processNode g fuel a d) acc
        (acc1.1 ++ [nid], acc1.2 ++ [nodeStmt g node])

/-- Processing of a node's dependency list in order. -/
def processDeps (g : WorkflowGraph) (fuel : Nat)
    (acc : List String × List Stmt) (ds : List String) :
    List String × List Stmt :=
  ds.foldl (fun a d => processNode g fuel a d) acc

/-- Embeds `WorkflowSerializer.deserialize_workflow`: process every
node in list order and return the emitted statements. -/
def deserializeWorkflow (g : WorkflowGraph) : List Stmt :=
  (g.nodes.foldl (fun acc n => processNode g (g.nodes.length + 1) acc n.id)
    ([], [])).2

/-- The agent state the deserialization path touches: the tool
registry, the workflow registry, and the stored workflow sources
(`self._tools`, `self._workflows`, `self._workflow_sources`). -/
structure AgentState where
  tools : Tools
  workflows : List (String × List Stmt)
  workflowSources : List (String × List Stmt)

/-- The two errors `update_workflow_from_graph` can raise. -/
inductive AgentError where
  | valueError (msg : String) : AgentError
  | deserializationError (msg : String) : AgentError
  deriving DecidableEq

/-- Python dict assignment `d[k] = v`: replace in place if the key
exists, else append. -/
def setAssoc {α : Type} (l : List (String × α)) (k : String) (v : α) :
    List (String × α) :=
  if (l.lookup k).isSome then l.map fun p => if p.1 == k then (k, v) else p
  else l ++ [(k, v)]

/-- Embeds `Agent.update_workflow_from_graph` (`agent.py` lines
196–247): unknown workflow name and unknown node types are rejected
before anything is written, so an error leaves the state unchanged; on
success the regenerated body is transformed once and stored both as the
workflow source and as the registry entry (the compiled function the
registry holds runs exactly this transformed body). -/
def updateWorkflowFromGraph (st : AgentState) (name : String)
    (g : WorkflowGraph) : AgentState × Option AgentError :=
  if (st.workflows.lookup name).isNone then
    (st, some (.valueError ("Workflow " ++ name ++ " not found")))
  else
    match (g.nodes.filter fun n => (st.tools.lookup n.type).isNone).map
        Node.type with
    | [] =>
      let codeBody := deserializeWorkflow g
      let transformed := transformStmts st.tools codeBody
      ({ st with
          workflowSources := setAssoc st.workflowSources name transformed
          workflows := setAssoc st.workflows name transformed }, Option.none)
    | t :: ts =>
      (st, some (.deserializationError
        ("The following tools are not available: " ++
          String.intercalate ", " (t :: ts))))

end ToolAgentDemo

namespace ToolAgentDemo

/-- **C6.** Submitting to `update_workflow_from_graph`, for an existing
workflow name, a graph containing a node whose type is not in the
agent's tool set raises `DeserializationError` with message
`"The following tools are not available: <comma-separated missing
types>"`, and the agent state — the workflow registry and the stored
workflow sources — is returned unchanged (atomicity on error). -/
theorem c6_unknown_tool (st : AgentState) (name : String) (g : WorkflowGraph)
    (hw : (st.workflows.lookup name).isSome)
    (hm : (g.nodes.filter fun n => (st.tools.lookup n.type).isNone).map
      Node.type ≠ []) :
    updateWorkflowFromGraph st name g =
      (st, some (.deserializationError
        ("The following tools are not available: " ++
          String.intercalate ", "
            ((g.nodes.filter fun n => (st.tools.lookup n.type).isNone).map
              Node.type)))) ∧
    (updateWorkflowFromGraph st name g).1 = st := by
  have hnone : (st.workflows.lookup name).isNone = false := by
    cases h : st.workflows.lookup name with
    | none => simp [h] at hw
    | some v => rfl
  constructor
  · unfold updateWorkflowFromGraph
    rw [hnone]
    simp only [Bool.false_eq_true, if_false]
    cases hmm : (g.nodes.filter fun n => (st.tools.lookup n.type).isNone).map
        Node.type with
    | nil => exact absurd hmm hm
    | cons t ts => rfl
  · unfold updateWorkflowFromGraph
    rw [hnone]
    simp only [Bool.false_eq_true, if_false]
    cases hmm : (g.nodes.filter fun n => (st.tools.lookup n.type).isNone).map
        Node.type with
    | nil => exact absurd hmm hm
    | cons t ts => rfl

/-- Agent used by the C6 witness: one tool `tool1`, one (empty)
registered workflow `test_workflow`. -/
def witnessAgentC6 : AgentState :=
  { tools := [("tool1", rawConcatTool)]
    workflows := [("test_workflow", [])]
    workflowSources := [("test_workflow", [])] }

/-- Graph with a single node of unknown type `does_not_exist`. -/
def witnessGraphC6 : WorkflowGraph :=
  { nodes := [{ id := "node_0", type := "does_not_exist",
                inputs := [⟨"node_0:input:0", "'test_input'"⟩],
                outputs := [⟨"node_0:output:0", "result1"⟩],
                posX := 100, posY := 100 }]
    edges := [] }

/-- Witness for C6: the concrete scenario of the spec, with the exact
error message `"The following tools are not available:
does_not_exist"`, leaving the state untouched. -/
theorem c6_unknown_tool_witness :
    updateWorkflowFromGraph witnessAgentC6 "test_workflow" witnessGraphC6 =
      (witnessAgentC6, some (.deserializationError
        "The following tools are not available: does_not_exist")) := by
  have h := (c6_unknown_tool witnessAgentC6 "test_workflow" witnessGraphC6
    (by decide) (by decide)).1
  rw [h]
  rfl

end ToolAgentDemo

namespace ToolAgentDemo

/-- The tuple stored per kernel:
`(module_path, var_name, method_name, args, kwargs)`. -/
structure KernelInfo where
  modulePath : String
  varName : String
  methodName : String
  args : List PyVal
  kwargs : List (String × PyVal)

/-- Python `==` on two stored kernel tuples (list equality on args is
elementwise `==`; kwargs dicts are compared here in insertion order,
which coincides with dict equality for the scenarios exercised). -/
def kernelInfoEq (a b : KernelInfo) : Bool :=
  a.modulePath == b.modulePath && a.varName == b.varName &&
    a.methodName == b.methodName && pyEqList a.args b.args &&
    (a.kwargs.length == b.kwargs.length &&
      (a.kwargs.zip b.kwargs).all fun p => p.1.1 == p.2.1 && pyEq p.1.2 p.2.2)

/-- The sandbox interpreter's globals for workflow stepping:
`workflow_iterator` (remaining elements), `final_result`, and
`current_kernel_id`.  There is a single set of these globals per
executor — each start overwrites them. -/
structure SandboxState where
  iterator : List Arg
  finalResult : Option ResultV
  currentKernelId : String

/-- The state of an `AsyncExecutor`: the active-kernel map (keys may be
`None`: the start script can emit `kernel_id: None` and the bookkeeping
stores it verbatim), the rolling kernel counter, the sandbox globals,
and whether the sandbox interpreter is up. -/
structure ExecState where
  activeKernels : List (Option String × KernelInfo)
  kernelCounter : Nat
  sandbox : SandboxState
  initialized : Bool

/-- One JSON object printed by the executor scripts. -/
inductive ExecOutput where
  | resultWithKernel (v : PyVal) (kernelId : Option String) : ExecOutput
  | resultOnly (v : PyVal) : ExecOutput
  | resultsOnly (vs : List PyVal) : ExecOutput
  | errorOnly (e : PyVal) : ExecOutput

/-- Whether the output JSON has a `kernel_id` key, and its value. -/
def ExecOutput.kernelKey : ExecOutput → Option (Option String)
  | .resultWithKernel _ kid => some kid
  | _ => Option.none

/-- Structured HTTP errors raised by the executor. -/
inductive HttpError where
  | notFound (detail : String) : HttpError
  | badRequest (detail : String) : HttpError
  | serverError (detail : String) : HttpError
  deriving DecidableEq

/-- Maps a drained outcome to the printed JSON object. -/
def drainOutput : DrainOut → ExecOutput
  | .finalOut v => .resultOnly v
  | .resultsOut vs => .resultsOnly vs
  | .errorOut e => .errorOnly e
  | .raisedOut e => .errorOnly e

/-- Embeds the start script (`api/executor.py` lines 162–200) for a
workflow: materialise the iterator and, with `step_by_step`, draw one
element — an err Result prints the error; an ok Result always prints
its unwrapped value with `kernel_id: None` (the `final_result.is_ok()`
test cannot fail after the `is_err` return); a non-Result element is
printed with the fresh kernel id.  Without `step_by_step` the iterator
is drained to completion. -/
def startScript (elems : List Arg) (kid : String) (stepByStep : Bool) :
    ExecOutput × SandboxState :=
  if stepByStep then
    match elems with
    | [] => (.errorOnly (.exn "StopIteration" ""),
             ⟨[], Option.none, kid⟩)
    | e :: rest =>
      match e with
      | .res r =>
        if r.is_err then (.errorOnly r.error, ⟨rest, Option.none, kid⟩)
        else (.resultWithKernel r.unwrap Option.none, ⟨rest, some r, kid⟩)
      | .val v => (.resultWithKernel v (some kid), ⟨rest, Option.none, kid⟩)
  else
    (drainOutput (drainElems elems Option.none []), ⟨[], Option.none, kid⟩)

/-- Embeds the continue script (`api/executor.py` lines 111–127): an
exhausted iterator prints the stored final result (or `None`) with
`kernel_id: None`; an err Result prints the error; an ok Result always
prints its unwrapped value with `kernel_id: None` (same dead branch as
in the start script); a non-Result element is printed with the current
kernel id. -/
def continueScript (sb : SandboxState) : ExecOutput × SandboxState :=
  match sb.iterator with
  | [] =>
    (.resultWithKernel
      (match sb.finalResult with
       | some r => r.unwrap
       | Option.none => .none) Option.none,
     { sb with iterator := [] })
  | e :: rest =>
    match e with
    | .res r =>
      if r.is_err then (.errorOnly r.error, { sb with iterator := rest })
      else (.resultWithKernel r.unwrap Option.none,
        ⟨rest, some r, sb.currentKernelId⟩)
    | .val v =>
      (.resultWithKernel v (some sb.currentKernelId),
       { sb with iterator := rest })

/-- The fresh kernel id `f"k{counter:02d}" + <3 random lowercase
letters>`; the random suffix is a parameter of the model. -/
def mkKernelId (counter : Nat) (suffix : String) : String :=
  "k" ++ (if counter < 10 then "0" else "") ++ Nat.repr counter ++ suffix

/-- Dict assignment on the active-kernel map (keys may be `None`). -/
def setActive (l : List (Option String × KernelInfo)) (k : Option String)
    (v : KernelInfo) : List (Option String × KernelInfo) :=
  if (l.lookup k).isSome then l.map fun p => if p.1 == k then (k, v) else p
  else l ++ [(k, v)]

/-- Embeds `AsyncExecutor.execute` for workflows on an `env` executor
(`api/executor.py` lines 78–277): validate a supplied kernel id against
the active set and the stored call tuple; run the continue script, or
the start script with a freshly generated kernel id.  An error output
was printed just before a `sys.exit`, so the shell reply status is
`error` and line 246 returns the output early — before any bookkeeping,
so neither the step-by-step store nor the cleanup delete runs (the
sandbox globals, however, already advanced).  For a non-error output
the bookkeeping runs: a step-by-step start stores the output's
`kernel_id` key verbatim (even `None`) and advances the counter modulo
100, and a continuation whose output carries no (or a null)
`kernel_id` deletes the kernel entry.  The element list stands for the
materialised workflow iterator. -/
def AsyncExecutor.execute (st : ExecState) (info : KernelInfo)
    (elems : List Arg) (stepByStep : Bool) (kernelId : Option String)
    (suffix : String) : Except HttpError (ExecOutput × ExecState) :=
  let st1 : ExecState := { st with initialized := true }
  match kernelId with
  | some k =>
    match st1.activeKernels.lookup (some k) with
    | Option.none => .error (.notFound ("Kernel " ++ k ++ " not found"))
    | some stored =>
      if kernelInfoEq stored info = false then
        .error (.badRequest "Kernel parameters do not match original execution")
      else
        let out := (continueScript st1.sandbox).1
        let sb2 := (continueScript st1.sandbox).2
        let st2 : ExecState := { st1 with sandbox := sb2 }
        match out with
        | .errorOnly e => .ok (.errorOnly e, st2)
        | _ =>
          let st3 : ExecState :=
            if (out.kernelKey == some Option.none) ||
                (out.kernelKey == Option.none)
            then { st2 with
              activeKernels := st2.activeKernels.filter fun p => p.1 != some k }
            else st2
          .ok (out, st3)
  | Option.none =>
    let kid := mkKernelId st1.kernelCounter suffix
    let out := (startScript elems kid stepByStep).1
    let sb2 := (startScript elems kid stepByStep).2
    let st2 : ExecState := { st1 with sandbox := sb2 }
    match out with
    | .errorOnly e => .ok (.errorOnly e, st2)
    | _ =>
      let st3 : ExecState :=
        match stepByStep, out.kernelKey with
        | true, some kidOut =>
          { st2 with
            activeKernels := setActive st2.activeKernels kidOut info
            kernelCounter := (st2.kernelCounter + 1) % 100 }
        | _, _ => st2
      .ok (out, st3)

end ToolAgentDemo

namespace ToolAgentDemo

/-- The call tuple of the stepwise scenarios. -/
def infoC5 : KernelInfo :=
  ⟨"test_module", "TestAgent", "test_workflow", [.str "Hello"], []⟩

/-- A fresh executor: no active kernels, counter 0, sandbox not yet
populated. -/
def st0C5 : ExecState := ⟨[], 0, ⟨[], Option.none, ""⟩, false⟩

theorem continueScript_val (sb : SandboxState) (v : PyVal) (rest : List Arg)
    (hit : sb.iterator = .val v :: rest) :
    continueScript sb =
      (.resultWithKernel v (some sb.currentKernelId),
       { sb with iterator := rest }) := by
  unfold continueScript
  rw [hit]

theorem continueScript_okRes (sb : SandboxState) (r : ResultV)
    (rest : List Arg) (hit : sb.iterator = .res r :: rest)
    (hok : r.is_err = false) :
    continueScript sb =
      (.resultWithKernel r.unwrap Option.none,
       ⟨rest, some r, sb.currentKernelId⟩) := by
  unfold continueScript
  rw [hit]
  simp [hok]

theorem continueScript_errRes (sb : SandboxState) (r : ResultV)
    (rest : List Arg) (hit : sb.iterator = .res r :: rest)
    (herr : r.is_err = true) :
    continueScript sb =
      (.errorOnly r.error, { sb with iterator := rest }) := by
  unfold continueScript
  rw [hit]
  simp [herr]

theorem continueScript_exhausted (sb : SandboxState)
    (hit : sb.iterator = []) :
    continueScript sb =
      (.resultWithKernel
        (match sb.finalResult with
         | some r => r.unwrap
         | Option.none => .none) Option.none,
       { sb with iterator := [] }) := by
  unfold continueScript
  rw [hit]

end ToolAgentDemo

namespace ToolAgentDemo

theorem execute_continue (st : ExecState) (info stored : KernelInfo)
    (k : String) (elems : List Arg) (suffix : String)
    (hk : st.activeKernels.lookup (some k) = some stored)
    (hp : kernelInfoEq stored info = true) :
    AsyncExecutor.execute st info elems false (some k) suffix =
      match (continueScript st.sandbox).1 with
      | .errorOnly e =>
        .ok (.errorOnly e,
          { st with initialized := true
                    sandbox := (continueScript st.sandbox).2 })
      | _ =>
        .ok ((continueScript st.sandbox).1,
          if ((continueScript st.sandbox).1.kernelKey == some Option.none) ||
              ((continueScript st.sandbox).1.kernelKey == Option.none) then
            { st with initialized := true
                      sandbox := (continueScript st.sandbox).2
                      activeKernels :=
                        st.activeKernels.filter fun p => p.1 != some k }
          else
            { st with initialized := true
                      sandbox := (continueScript st.sandbox).2 }) := by
  unfold AsyncExecutor.execute
  simp only [hk, hp]
  rfl

end ToolAgentDemo

namespace ToolAgentDemo

/-- Element stream of the three-yield stepwise scenario: two plain
values, then an ok Result. -/
def elemsC5 : List Arg :=
  [.val (.str "Step 1"), .val (.str "Step 2"), .res (okV (.str "Success"))]

/-- Executor state after starting `elemsC5` step-by-step. -/
def stC5a : ExecState :=
  ⟨[(some "k00abc", infoC5)], 1,
   ⟨[.val (.str "Step 2"), .res (okV (.str "Success"))], Option.none,
    "k00abc"⟩, true⟩

/-- Executor state after the first continuation. -/
def stC5b : ExecState :=
  ⟨[(some "k00abc", infoC5)], 1,
   ⟨[.res (okV (.str "Success"))], Option.none, "k00abc"⟩, true⟩

/-- Executor state after the terminating continuation. -/
def stC5c : ExecState :=
  ⟨[], 1, ⟨[], some (okV (.str "Success")), "k00abc"⟩, true⟩

/-- A mid-session state whose next element is an err Result followed by
a plain value. -/
def stC5err : ExecState :=
  ⟨[(some "k00abc", infoC5)], 1,
   ⟨[.res (errV (.exn "ValueError" "boom")), .val (.str "After")],
    Option.none, "k00abc"⟩, true⟩

/-- The state after continuing `stC5err`: the err element was consumed
but the kernel entry survived the early return. -/
def stC5err2 : ExecState :=
  ⟨[(some "k00abc", infoC5)], 1,
   ⟨[.val (.str "After")], Option.none, "k00abc"⟩, true⟩

/-- The state after one further continuation of the surviving
session. -/
def stC5err3 : ExecState :=
  ⟨[(some "k00abc", infoC5)], 1, ⟨[], Option.none, "k00abc"⟩, true⟩

/-- **C5 (counterexample).** The claim that an ok Result drawn while
the iterator still has more elements is returned together with the
same kernel id is false: starting a workflow whose first element is the
ok Result 1 (with ok Results 2 and 3 still pending) returns
`kernel_id: None` — the script's `final_result.is_ok()` test cannot
fail after the `is_err` return, so any ok Result terminates the
stepping — and the bookkeeping stores the session under the key
`None`. -/
theorem c5_counterexample :
    AsyncExecutor.execute st0C5 infoC5
        [.res (okV (.int 1)), .res (okV (.int 2)), .res (okV (.int 3))]
        true Option.none "abc" =
      .ok (.resultWithKernel (.int 1) Option.none,
        ⟨[(Option.none, infoC5)], 1,
         ⟨[.res (okV (.int 2)), .res (okV (.int 3))], some (okV (.int 1)),
          "k00abc"⟩, true⟩) ∧
    (okV (.int 1)).is_ok = true := by
  exact ⟨rfl, rfl⟩

/-- **C5 (amended).** In step-by-step execution a non-terminal element
is a non-Result element: it is returned with the same kernel id and the
kernel stays active.  The session terminates — null kernel id and the
entry removed from the active set — on any ok Result element (even
while the iterator has more elements) and on exhaustion.  An err Result
element returns an error object but the kernel entry is KEPT: the
script's `sys.exit` makes the shell reply status `error`, and the early
return at `executor.py` line 246 skips the cleanup delete (the sandbox
iterator has nonetheless advanced past the err element).  Concretely,
for a three-yield workflow yielding two plain values and then an ok
Result: start returns element 1 with a kernel id, two continues return
elements 2 and 3, and the third response carries a null kernel id with
the kernel absent from the active set; and continuing a session whose
next element is an err Result returns the error object while leaving
the entry in the active set, so a further continue still steps the
iterator. -/
theorem c5_amended (st : ExecState) (info stored : KernelInfo) (k : String)
    (elems : List Arg) (suffix : String)
    (hk : st.activeKernels.lookup (some k) = some stored)
    (hp : kernelInfoEq stored info = true) :
    (∀ (v : PyVal) (rest : List Arg), st.sandbox.iterator = .val v :: rest →
      AsyncExecutor.execute st info elems false (some k) suffix =
        .ok (.resultWithKernel v (some st.sandbox.currentKernelId),
          { st with initialized := true
                    sandbox := { st.sandbox with iterator := rest } })) ∧
    (∀ (r : ResultV) (rest : List Arg),
      st.sandbox.iterator = .res r :: rest → r.is_err = false →
      AsyncExecutor.execute st info elems false (some k) suffix =
        .ok (.resultWithKernel r.unwrap Option.none,
          { st with initialized := true
                    sandbox := ⟨rest, some r, st.sandbox.currentKernelId⟩
                    activeKernels :=
                      st.activeKernels.filter fun p => p.1 != some k })) ∧
    (∀ (r : ResultV) (rest : List Arg),
      st.sandbox.iterator = .res r :: rest → r.is_err = true →
      AsyncExecutor.execute st info elems false (some k) suffix =
        .ok (.errorOnly r.error,
          { st with initialized := true
                    sandbox := { st.sandbox with iterator := rest } })) ∧
    (st.sandbox.iterator = [] →
      AsyncExecutor.execute st info elems false (some k) suffix =
        .ok (.resultWithKernel
            (match st.sandbox.finalResult with
             | some r => r.unwrap
             | Option.none => .none) Option.none,
          { st with initialized := true
                    sandbox := { st.sandbox with iterator := [] }
                    activeKernels :=
                      st.activeKernels.filter fun p => p.1 != some k })) ∧
    (AsyncExecutor.execute st0C5 infoC5 elemsC5 true Option.none "abc" =
      .ok (.resultWithKernel (.str "Step 1") (some "k00abc"), stC5a) ∧
     AsyncExecutor.execute stC5a infoC5 [] false (some "k00abc") "zzz" =
      .ok (.resultWithKernel (.str "Step 2") (some "k00abc"), stC5b) ∧
     AsyncExecutor.execute stC5b infoC5 [] false (some "k00abc") "zzz" =
      .ok (.resultWithKernel (.str "Success") Option.none, stC5c) ∧
     stC5c.activeKernels.lookup (some "k00abc") = Option.none) ∧
    (AsyncExecutor.execute stC5err infoC5 [] false (some "k00abc") "zzz" =
      .ok (.errorOnly (.exn "ValueError" "boom"), stC5err2) ∧
     stC5err2.activeKernels.lookup (some "k00abc") = some infoC5 ∧
     AsyncExecutor.execute stC5err2 infoC5 [] false (some "k00abc") "zzz" =
      .ok (.resultWithKernel (.str "After") (some "k00abc"), stC5err3) ∧
     stC5err3.activeKernels.lookup (some "k00abc") = some infoC5) := by
  refine ⟨?_, ?_, ?_, ?_, ⟨rfl, rfl, rfl, rfl⟩, rfl, rfl, rfl, rfl⟩
  · intro v rest hit
    rw [execute_continue st info stored k elems suffix hk hp,
      continueScript_val st.sandbox v rest hit]
    rfl
  · intro r rest hit hok
    rw [execute_continue st info stored k elems suffix hk hp,
      continueScript_okRes st.sandbox r rest hit hok]
    rfl
  · intro r rest hit herr
    rw [execute_continue st info stored k elems suffix hk hp,
      continueScript_errRes st.sandbox r rest hit herr]
  · intro hit
    rw [execute_continue st info stored k elems suffix hk hp,
      continueScript_exhausted st.sandbox hit]
    rfl

/-- Witness for C5 (amended): the non-Result conjunct applied at the
concrete mid-scenario state. -/
theorem c5_amended_witness :
    AsyncExecutor.execute stC5a infoC5 [] false (some "k00abc") "zzz" =
      .ok (.resultWithKernel (.str "Step 2") (some "k00abc"), stC5b) := by
  have h := (c5_amended stC5a infoC5 infoC5 "k00abc" [] "zzz" rfl rfl).1
    (.str "Step 2") [.res (okV (.str "Success"))] rfl
  exact h.trans rfl

end ToolAgentDemo

namespace ToolAgentDemo

/-- Modelled from the spec: `AsyncExecutor.cancel_kernel`, which the
cancel route calls, is absent from the source tree (only its caller in
`api/routes.py` and its tests exist).  Per the spec, cancelling an
active kernel drops the iterator's session entry and reports success;
cancelling an unknown kernel reports failure; the sandbox interpreter
is left alive. -/
def cancelKernel (st : ExecState) (k : String) : Bool × ExecState :=
  if (st.activeKernels.lookup (some k)).isSome then
    (true, { st with
      activeKernels := st.activeKernels.filter fun p => p.1 != some k })
  else (false, st)

/-- Embeds `cancel_execution` (`api/routes.py` lines 129–140): ask each
executor to cancel; the first success yields the success message,
otherwise the route answers 404. -/
def cancelExecution :
    List ExecState → String → Except HttpError (String × List ExecState)
  | [], k => .error (.notFound ("Kernel " ++ k ++ " not found"))
  | st :: rest, k =>
    match cancelKernel st k with
    | (true, st2) =>
      .ok ("Kernel " ++ k ++ " cancelled successfully", st2 :: rest)
    | (false, st2) =>
      match cancelExecution rest k with
      | .ok (msg, rests) => .ok (msg, st2 :: rests)
      | .error e => .error e

theorem lookup_filter_ne (k : String) :
    ∀ l : List (Option String × KernelInfo),
    (l.filter fun p => p.1 != some k).lookup (some k) = Option.none
  | [] => rfl
  | (key, v) :: rest => by
    by_cases hk : key = some k
    · have h1 : (((key, v) :: rest).filter fun p => p.1 != some k) =
          rest.filter fun p => p.1 != some k := by
        rw [List.filter_cons]
        have hb : ((key, v).1 != some k) = false := by simp [hk]
        rw [hb]
        simp
      rw [h1]
      exact lookup_filter_ne k rest
    · have hb : ((key, v).1 != some k) = true := by
        simpa [bne_iff_ne] using hk
      have h1 : (((key, v) :: rest).filter fun p => p.1 != some k) =
          (key, v) :: (rest.filter fun p => p.1 != some k) := by
        rw [List.filter_cons, hb]
        simp
      rw [h1, List.lookup_cons]
      have hbeq : (some k == key) = false := by
        simp only [beq_eq_false_iff_ne, ne_eq]
        exact fun h => hk h.symm
      rw [hbeq]
      exact lookup_filter_ne k rest

/-- **C7.** `cancel(kernel_id)` on an active kernel removes that
kernel's session entry and reports success, leaving the sandbox
interpreter alive (the sandbox handle and its initialized flag are
untouched); cancelling a kernel id that is not in the active set —
including a second cancel of the same id — fails with a not-found
error. -/
theorem c7_cancel (st : ExecState) (k : String) :
    ((st.activeKernels.lookup (some k)).isSome = true →
      cancelExecution [st] k =
        .ok ("Kernel " ++ k ++ " cancelled successfully",
          [{ st with
              activeKernels :=
                st.activeKernels.filter fun p => p.1 != some k }]) ∧
      ({ st with activeKernels :=
          st.activeKernels.filter fun p => p.1 != some k } :
        ExecState).activeKernels.lookup (some k) = Option.none ∧
      ({ st with activeKernels :=
          st.activeKernels.filter fun p => p.1 != some k } :
        ExecState).sandbox = st.sandbox ∧
      ({ st with activeKernels :=
          st.activeKernels.filter fun p => p.1 != some k } :
        ExecState).initialized = st.initialized ∧
      cancelExecution
        [{ st with activeKernels :=
            st.activeKernels.filter fun p => p.1 != some k }] k =
        .error (.notFound ("Kernel " ++ k ++ " not found"))) ∧
    ((st.activeKernels.lookup (some k)).isSome = false →
      cancelExecution [st] k =
        .error (.notFound ("Kernel " ++ k ++ " not found"))) := by
  constructor
  · intro hs
    have hcancel : cancelKernel st k =
        (true, { st with
          activeKernels :=
            st.activeKernels.filter fun p => p.1 != some k }) := by
      unfold cancelKernel
      rw [if_pos hs]
    have hlf := lookup_filter_ne k st.activeKernels
    refine ⟨?_, hlf, rfl, rfl, ?_⟩
    · unfold cancelExecution
      rw [hcancel]
    · have hcancel2 : cancelKernel
          { st with activeKernels :=
            st.activeKernels.filter fun p => p.1 != some k } k =
          (false, { st with activeKernels :=
            st.activeKernels.filter fun p => p.1 != some k }) := by
        unfold cancelKernel
        rw [if_neg (by
          show ¬ ((st.activeKernels.filter fun p =>
            p.1 != some k).lookup (some k)).isSome = true
          rw [hlf]
          exact fun h => nomatch h)]
      unfold cancelExecution
      rw [hcancel2]
      rfl
  · intro hs
    have hcancel : cancelKernel st k = (false, st) := by
      unfold cancelKernel
      rw [if_neg (by rw [hs]; exact fun h => nomatch h)]
    unfold cancelExecution
    rw [hcancel]
    rfl

/-- Witness for C7: a single executor holding the kernel `k00abc` —
the first cancel succeeds and removes the entry, the second cancel
answers not-found. -/
theorem c7_cancel_witness :
    cancelExecution [stC5a] "k00abc" =
      .ok ("Kernel k00abc cancelled successfully",
        [{ stC5a with activeKernels := [] }]) ∧
    cancelExecution [{ stC5a with activeKernels := [] }] "k00abc" =
      .error (.notFound "Kernel k00abc not found") := by
  have h := (c7_cancel stC5a "k00abc").1 rfl
  refine ⟨h.1.trans (by rfl), ?_⟩
  exact h.2.2.2.2

end ToolAgentDemo

namespace ToolAgentDemo

/-- One assignment of the restricted workflow class C4 reasons about:
`<target> = self.<tool>(<args>)`. -/
structure AsgSpec where
  target : String
  tool : String
  args : List Expr

/-- The statement of an assignment spec. -/
def asgStmt (a : AsgSpec) : Stmt := .assign a.target (.call a.tool a.args)

/-- The analyzer event of an assignment spec. -/
def asgEvent (a : AsgSpec) : FunctionCall := ⟨a.tool, a.args, some a.target⟩

/-- A serializer-safe argument: a named variable whose name is not
quote-initial and not all digits (as any Python identifier is), or a
quoted string constant. -/
def goodArgB : Expr → Bool
  | .name x => !isLiteralName x && (strToNat? x).isNone
  | .const (.str _) => true
  | _ => false

/-- The node id `f"node_{k}"`. -/
def mkNodeId (k : Nat) : String := "node_" ++ Nat.repr k

theorem mkNode_id (k : Nat) (fc : FunctionCall) :
    (mkNode k fc).id = mkNodeId k := rfl

theorem mkNodeId_inj {j k : Nat} (h : mkNodeId j = mkNodeId k) : j = k := by
  have hd := congrArg String.data h
  simp only [mkNodeId, String.data_append] at hd
  have h2 : (Nat.repr j).data = (Nat.repr k).data :=
    List.append_cancel_left hd
  rw [repr_data, repr_data] at h2
  exact digitsStr_inj j k h2

theorem mkNodeId_data_ne_colon (k : Nat) :
    ∀ c ∈ (mkNodeId k).data, c ≠ ':' := by
  intro c hc
  rw [show (mkNodeId k).data = "node_".data ++ (Nat.repr k).data from rfl]
    at hc
  rcases List.mem_append.1 hc with h | h
  · have : c ∈ ['n', 'o', 'd', 'e', '_'] := h
    simp at this
    rcases this with h1 | h1 | h1 | h1 | h1 <;> rw [h1] <;> decide
  · exact nat_repr_ne_colon k c h

theorem portParent_data (s : String) (pre tail : List Char)
    (hs : s.data = pre ++ ':' :: tail) (hpre : ∀ c ∈ pre, c ≠ ':') :
    portParent s = ⟨pre⟩ := by
  unfold portParent
  rw [hs, takeWhile_append_stop _ pre tail
    (fun c hc => by simpa [bne_iff_ne] using hpre c hc) ':' (by decide)]

theorem portParent_input (k i : Nat) :
    portParent (mkNodeId k ++ ":input:" ++ Nat.repr i) = mkNodeId k := by
  have hd : (mkNodeId k ++ ":input:" ++ Nat.repr i).data =
      (mkNodeId k).data ++ ':' ::
        (['i', 'n', 'p', 'u', 't', ':'] ++ (Nat.repr i).data) := by
    simp [String.data_append]
  have h := portParent_data _ _ _ hd (mkNodeId_data_ne_colon k)
  exact h

theorem portParent_output (k : Nat) :
    portParent (mkNodeId k ++ ":output:0") = mkNodeId k := by
  have hd : (mkNodeId k ++ ":output:0").data =
      (mkNodeId k).data ++ ':' :: ['o', 'u', 't', 'p', 'u', 't', ':', '0'] := by
    simp [String.data_append]
  exact portParent_data _ _ _ hd (mkNodeId_data_ne_colon k)

theorem inputId_inj (k : Nat) {i i2 : Nat}
    (h : mkNodeId k ++ ":input:" ++ Nat.repr i =
      mkNodeId k ++ ":input:" ++ Nat.repr i2) : i = i2 := by
  have hd := congrArg String.data h
  simp only [String.data_append, List.append_assoc] at hd
  have h1 := List.append_cancel_left hd
  have h2 := List.append_cancel_left h1
  rw [repr_data, repr_data] at h2
  exact digitsStr_inj i i2 h2

end ToolAgentDemo

namespace ToolAgentDemo

/-- The port name the serializer derives from an argument. -/
def portNameOf : Expr → String
  | .name x => x
  | .const v => pyRepr v
  | _ => ""

/-- Explicit form of the input ports of a good-argument node, with the
running index made explicit. -/
def portsOfFrom (nodeId : String) : Nat → List Expr → List Port
  | _, [] => []
  | i, e :: rest =>
    ⟨nodeId ++ ":input:" ++ Nat.repr i, portNameOf e⟩ ::
      portsOfFrom nodeId (i + 1) rest

theorem enumFrom_filterMap_good (nodeId : String) :
    ∀ (args : List Expr) (i : Nat), (∀ e ∈ args, goodArgB e = true) →
    (List.enumFrom i args).filterMap (fun p =>
      match p.2 with
      | .name x => some (Port.mk (nodeId ++ ":input:" ++ Nat.repr p.1) x)
      | .const v =>
        some (Port.mk (nodeId ++ ":input:" ++ Nat.repr p.1) (pyRepr v))
      | _ => Option.none) = portsOfFrom nodeId i args
  | [], _, _ => rfl
  | e :: rest, i, h => by
    have he : goodArgB e = true := h e (by simp)
    have hrec := enumFrom_filterMap_good nodeId rest (i + 1)
      (fun x hx => h x (List.mem_cons_of_mem _ hx))
    cases e with
    | name x =>
      simp only [List.enumFrom, List.filterMap_cons] at *
      rw [hrec]
      rfl
    | const v =>
      simp only [List.enumFrom, List.filterMap_cons] at *
      rw [hrec]
      rfl
    | call m as => simp [goodArgB] at he
    | binor a b => simp [goodArgB] at he

theorem mkInputPorts_good (nodeId : String) (args : List Expr)
    (h : ∀ e ∈ args, goodArgB e = true) :
    mkInputPorts nodeId args = portsOfFrom nodeId 0 args := by
  rw [show mkInputPorts nodeId args =
    (List.enumFrom 0 args).filterMap (fun p =>
      match p.2 with
      | .name x => some (Port.mk (nodeId ++ ":input:" ++ Nat.repr p.1) x)
      | .const v =>
        some (Port.mk (nodeId ++ ":input:" ++ Nat.repr p.1) (pyRepr v))
      | _ => Option.none) from rfl]
  exact enumFrom_filterMap_good nodeId args 0 h

theorem portsOfFrom_shape (nodeId : String) :
    ∀ (args : List Expr) (i : Nat) (p : Port),
    p ∈ portsOfFrom nodeId i args →
    ∃ j, i ≤ j ∧ p.id = nodeId ++ ":input:" ++ Nat.repr j
  | [], _, _, hp => by cases hp
  | e :: rest, i, p, hp => by
    rcases List.mem_cons.1 hp with h | h
    · exact ⟨i, Nat.le_refl i, by rw [h]⟩
    · rcases portsOfFrom_shape nodeId rest (i + 1) p h with ⟨j, hj, he⟩
      exact ⟨j, by omega, he⟩

theorem portsOfFrom_parent (k : Nat) :
    ∀ (args : List Expr) (i : Nat) (p : Port),
    p ∈ portsOfFrom (mkNodeId k) i args → portParent p.id = mkNodeId k := by
  intro args i p hp
  rcases portsOfFrom_shape (mkNodeId k) args i p hp with ⟨j, _, he⟩
  rw [he]
  exact portParent_input k j

theorem portsOfFrom_ids_nodup (k : Nat) :
    ∀ (args : List Expr) (i : Nat),
    ((portsOfFrom (mkNodeId k) i args).map Port.id).Nodup
  | [], _ => by simp [portsOfFrom]
  | e :: rest, i => by
    simp only [portsOfFrom, List.map_cons, List.nodup_cons]
    refine ⟨?_, portsOfFrom_ids_nodup k rest (i + 1)⟩
    intro hmem
    rcases List.mem_map.1 hmem with ⟨p, hp, hpe⟩
    rcases portsOfFrom_shape (mkNodeId k) rest (i + 1) p hp with ⟨j, hj, he⟩
    rw [he] at hpe
    have := inputId_inj k hpe.symm
    omega

/-- Round-trip of a quoted string constant through repr and re-parsing. -/
theorem parseArgText_quoted (s : String) :
    parseArgText ("'" ++ s ++ "'") = .const (.str s) := by
  have hd : ("'" ++ s ++ "'").data = '\'' :: (s.data ++ ['\'']) := by
    simp [String.data_append]
  unfold parseArgText
  rw [if_pos (by rw [isLiteralName, hd]; rfl)]
  congr 1
  rw [hd]
  show PyVal.str ⟨(s.data ++ ['\'']).dropLast⟩ = PyVal.str s
  rw [List.dropLast_concat]

/-- Re-parsing a plain identifier gives the identifier back. -/
theorem parseArgText_name (x : String) (h1 : isLiteralName x = false)
    (h2 : strToNat? x = Option.none) : parseArgText x = .name x := by
  unfold parseArgText
  rw [if_neg (by rw [h1]; exact fun h => nomatch h), h2]

end ToolAgentDemo

namespace ToolAgentDemo

theorem mkNode_asg (k : Nat) (a : AsgSpec)
    (hgood : ∀ e ∈ a.args, goodArgB e = true) :
    mkNode k (asgEvent a) =
      { id := mkNodeId k, type := a.tool,
        inputs := portsOfFrom (mkNodeId k) 0 a.args,
        outputs := [⟨mkNodeId k ++ ":output:0", a.target⟩],
        posX := 100 + ((k : Int) + 1) * 200, posY := 100 } := by
  have h := mkInputPorts_good ("node_" ++ Nat.repr k) a.args hgood
  simp only [mkNode, asgEvent, mkNodeId]
  rw [h]

/-- All port ids of a node carry the node index `k` as their parent. -/
def goodNodeIdx (k : Nat) (n : Node) : Prop :=
  (∀ ip ∈ n.inputs, portParent ip.id = mkNodeId k) ∧
  (∀ op ∈ n.outputs, portParent op.id = mkNodeId k)

/-- Consecutive indexing of a node list starting at a base index. -/
def chainGood : Nat → List Node → Prop
  | _, [] => True
  | b, n :: rest => goodNodeIdx b n ∧ chainGood (b + 1) rest

theorem mem_enumFrom_snd {α : Type} :
    ∀ (l : List α) (i : Nat) (p : Nat × α), p ∈ List.enumFrom i l → p.2 ∈ l
  | [], _, _, hp => by cases hp
  | a :: rest, i, p, hp => by
    rcases List.mem_cons.1 hp with h | h
    · rw [h]; simp
    · exact List.mem_cons_of_mem _ (mem_enumFrom_snd rest (i + 1) p h)

theorem mem_matchingOutputs (prev : List Node) (nm : String) (op : Port)
    (h : op ∈ matchingOutputs prev nm) :
    ∃ n ∈ prev, op ∈ n.outputs := by
  rcases List.mem_flatMap.1 h with ⟨n, hn, hop⟩
  exact ⟨n, hn, (List.mem_filter.1 hop).1⟩

theorem mem_mkEdgesForInputs :
    ∀ (ports : List Port) (prev : List Node) (ec : Nat) (e : GEdge),
    e ∈ mkEdgesForInputs ports prev ec →
    ∃ ip ∈ ports, e.target = ip.id ∧
      ∃ n ∈ prev, ∃ op ∈ n.outputs, e.source = op.id
  | [], _, _, _, he => by cases he
  | ip :: rest, prev, ec, e, he => by
    rw [mkEdgesForInputs_cons] at he
    by_cases hl : isLiteralName ip.name
    · rw [if_pos hl] at he
      rcases mem_mkEdgesForInputs rest prev ec e he with ⟨ip2, h1, h2⟩
      exact ⟨ip2, List.mem_cons_of_mem _ h1, h2⟩
    · rw [if_neg hl] at he
      rcases List.mem_append.1 he with h | h
      · rcases List.mem_map.1 h with ⟨p, hp, hpe⟩
        have hop := mem_enumFrom_snd _ _ _ hp
        rcases mem_matchingOutputs prev ip.name p.2 hop with ⟨n, hn, hpo⟩
        refine ⟨ip, by simp, ?_, n, hn, p.2, hpo, ?_⟩
        · rw [← hpe]
        · rw [← hpe]
      · rcases mem_mkEdgesForInputs rest prev _ e h with ⟨ip2, h1, h2⟩
        exact ⟨ip2, List.mem_cons_of_mem _ h1, h2⟩

theorem edgesGo_parents :
    ∀ (pend prev : List Node) (ec base : Nat),
    (∀ n ∈ prev, ∃ j, j < base ∧ goodNodeIdx j n) →
    chainGood base pend →
    ∀ e ∈ edgesGo pend prev ec,
    ∃ s t : Nat, s < t ∧ portParent e.source = mkNodeId s ∧
      portParent e.target = mkNodeId t
  | [], _, _, _, _, _, e, he => by cases he
  | n :: rest, prev, ec, base, hprev, hchain, e, he => by
    rw [show edgesGo (n :: rest) prev ec =
        mkEdgesForInputs n.inputs prev ec ++
          edgesGo rest (prev ++ [n])
            (ec + (mkEdgesForInputs n.inputs prev ec).length) from rfl] at he
    rcases List.mem_append.1 he with h | h
    · rcases mem_mkEdgesForInputs n.inputs prev ec e h with
        ⟨ip, hip, htgt, n2, hn2, op, hop, hsrc⟩
      rcases hprev n2 hn2 with ⟨j, hj, hgood2⟩
      refine ⟨j, base, hj, ?_, ?_⟩
      · rw [hsrc]; exact hgood2.2 op hop
      · rw [htgt]; exact hchain.1.1 ip hip
    · refine edgesGo_parents rest (prev ++ [n]) _ (base + 1) ?_ hchain.2 e h
      intro n2 hn2
      rcases List.mem_append.1 hn2 with h2 | h2
      · rcases hprev n2 h2 with ⟨j, hj, hg⟩
        exact ⟨j, by omega, hg⟩
      · simp at h2
        rw [h2]
        exact ⟨base, by omega, hchain.1⟩

theorem chainGood_nodesOf :
    ∀ (asgs : List AsgSpec) (base : Nat),
    (∀ a ∈ asgs, ∀ e ∈ a.args, goodArgB e = true) →
    chainGood base (nodesOf (asgs.map asgEvent) base)
  | [], _, _ => trivial
  | a :: rest, base, h => by
    refine ⟨?_, chainGood_nodesOf rest (base + 1)
      (fun x hx => h x (List.mem_cons_of_mem _ hx))⟩
    rw [mkNode_asg base a (h a (by simp))]
    constructor
    · intro ip hip
      exact portsOfFrom_parent base a.args 0 ip hip
    · intro op hop
      simp at hop
      rw [hop]
      exact portParent_output base

theorem mem_dedupGo :
    ∀ (seen l : List String) (x : String), x ∈ dedupGo seen l → x ∈ l
  | _, [], x, hx => by simp [dedupGo] at hx
  | seen, y :: rest, x, hx => by
    simp only [dedupGo] at hx
    by_cases hc : seen.contains y = true
    · rw [if_pos hc] at hx
      exact List.mem_cons_of_mem _ (mem_dedupGo seen rest x hx)
    · rw [if_neg hc] at hx
      rcases List.mem_cons.1 hx with h | h
      · rw [h]; simp
      · exact List.mem_cons_of_mem _ (mem_dedupGo (y :: seen) rest x h)

theorem mem_dedupKeepFirst :
    ∀ (l : List String) (x : String), x ∈ dedupKeepFirst l → x ∈ l :=
  fun l x hx => mem_dedupGo [] l x hx

theorem depsOf_bound (g : WorkflowGraph) (k : Nat)
    (hedges : ∀ e ∈ g.edges,
      ∃ s t : Nat, s < t ∧ portParent e.source = mkNodeId s ∧
        portParent e.target = mkNodeId t) :
    ∀ d ∈ depsOf g (mkNodeId k), ∃ j, j < k ∧ d = mkNodeId j := by
  intro d hd
  have hmem := mem_dedupKeepFirst _ _ hd
  rcases List.mem_map.1 hmem with ⟨e, he, hde⟩
  have hef := List.mem_filter.1 he
  rcases hedges e hef.1 with ⟨s, t, hst, hsrc, htgt⟩
  have htk : mkNodeId t = mkNodeId k := by
    have := hef.2
    rw [htgt] at this
    simpa using this
  have : t = k := mkNodeId_inj htk
  exact ⟨s, by omega, by rw [← hde, hsrc]⟩

end ToolAgentDemo

namespace ToolAgentDemo

theorem lookup_of_nodup_keys {β : Type} :
    ∀ (l : List (String × β)) (a : String) (b : β),
    (l.map Prod.fst).Nodup → (a, b) ∈ l → l.lookup a = some b
  | [], _, _, _, hm => by cases hm
  | (x, v) :: rest, a, b, hnd, hm => by
    rw [List.lookup_cons]
    rw [List.map_cons] at hnd
    rcases List.nodup_cons.1 hnd with ⟨hx, hrest⟩
    rcases List.mem_cons.1 hm with h | h
    · rw [show a = x from congrArg Prod.fst h,
        show b = v from congrArg Prod.snd h]
      simp
    · have hax : a ≠ x := by
        intro hax
        exact hx (List.mem_map.2 ⟨(a, b), h, by rw [hax]⟩)
      rw [show (a == x) = false from by simpa using hax]
      exact lookup_of_nodup_keys rest a b hrest h

theorem nodesOf_append (l1 l2 : List FunctionCall) :
    ∀ b : Nat, nodesOf (l1 ++ l2) b =
      nodesOf l1 b ++ nodesOf l2 (b + l1.length) := by
  induction l1 with
  | nil => intro b; simp [nodesOf]
  | cons fc rest ih =>
    intro b
    rw [List.cons_append, show nodesOf ((fc :: (rest ++ l2))) b =
      mkNode b fc :: nodesOf (rest ++ l2) (b + 1) from rfl, ih (b + 1)]
    rw [show nodesOf (fc :: rest) b = mkNode b fc :: nodesOf rest (b + 1)
      from rfl]
    simp only [List.cons_append, List.length_cons]
    rw [show b + 1 + rest.length = b + (rest.length + 1) from by omega]

theorem flatInput_parent :
    ∀ (asgs : List AsgSpec) (base : Nat),
    (∀ a ∈ asgs, ∀ e ∈ a.args, goodArgB e = true) →
    ∀ idv ∈ ((nodesOf (asgs.map asgEvent) base).flatMap
      fun n => n.inputs.map Port.id),
    ∃ k2, base ≤ k2 ∧ portParent idv = mkNodeId k2
  | [], _, _, idv, hm => by cases hm
  | a :: rest, base, hg, idv, hm => by
    rw [List.map_cons, show nodesOf (asgEvent a :: rest.map asgEvent) base =
      mkNode base (asgEvent a) :: nodesOf (rest.map asgEvent) (base + 1)
      from rfl, List.flatMap_cons] at hm
    rcases List.mem_append.1 hm with h | h
    · rcases List.mem_map.1 h with ⟨p, hp, hpe⟩
      rw [mkNode_asg base a (hg a (by simp))] at hp
      refine ⟨base, Nat.le_refl base, ?_⟩
      rw [← hpe]
      exact portsOfFrom_parent base a.args 0 p hp
    · rcases flatInput_parent rest (base + 1)
        (fun x hx => hg x (List.mem_cons_of_mem _ hx)) idv h with ⟨k2, hk2, hp⟩
      exact ⟨k2, by omega, hp⟩

theorem inputKeys_nodup :
    ∀ (asgs : List AsgSpec) (base : Nat),
    (∀ a ∈ asgs, ∀ e ∈ a.args, goodArgB e = true) →
    ((nodesOf (asgs.map asgEvent) base).flatMap
      fun n => n.inputs.map Port.id).Nodup
  | [], _, _ => by simp [nodesOf]
  | a :: rest, base, hg => by
    rw [List.map_cons, show nodesOf (asgEvent a :: rest.map asgEvent) base =
      mkNode base (asgEvent a) :: nodesOf (rest.map asgEvent) (base + 1)
      from rfl, List.flatMap_cons]
    rw [List.nodup_append]
    refine ⟨?_, inputKeys_nodup rest (base + 1)
      (fun x hx => hg x (List.mem_cons_of_mem _ hx)), ?_⟩
    · rw [mkNode_asg base a (hg a (by simp))]
      exact portsOfFrom_ids_nodup base a.args 0
    · intro idv h1 h2
      rw [mkNode_asg base a (hg a (by simp))] at h1
      rcases List.mem_map.1 h1 with ⟨p, hp, hpe⟩
      have hparent1 : portParent idv = mkNodeId base := by
        rw [← hpe]
        exact portsOfFrom_parent base a.args 0 p hp
      rcases flatInput_parent rest (base + 1)
        (fun x hx => hg x (List.mem_cons_of_mem _ hx)) idv h2 with
        ⟨k2, hk2, hparent2⟩
      have := mkNodeId_inj (hparent1.symm.trans hparent2)
      omega

theorem flatOutput_parent :
    ∀ (asgs : List AsgSpec) (base : Nat),
    (∀ a ∈ asgs, ∀ e ∈ a.args, goodArgB e = true) →
    ∀ idv ∈ ((nodesOf (asgs.map asgEvent) base).flatMap
      fun n => n.outputs.map Port.id),
    ∃ k2, base ≤ k2 ∧ portParent idv = mkNodeId k2 ∧
      idv = mkNodeId k2 ++ ":output:0"
  | [], _, _, idv, hm => by cases hm
  | a :: rest, base, hg, idv, hm => by
    rw [List.map_cons, show nodesOf (asgEvent a :: rest.map asgEvent) base =
      mkNode base (asgEvent a) :: nodesOf (rest.map asgEvent) (base + 1)
      from rfl, List.flatMap_cons] at hm
    rcases List.mem_append.1 hm with h | h
    · rw [mkNode_asg base a (hg a (by simp))] at h
      simp at h
      refine ⟨base, Nat.le_refl base, ?_, h⟩
      rw [h]
      exact portParent_output base
    · rcases flatOutput_parent rest (base + 1)
        (fun x hx => hg x (List.mem_cons_of_mem _ hx)) idv h with
        ⟨k2, hk2, hp, he⟩
      exact ⟨k2, by omega, hp, he⟩

theorem outputKeys_nodup :
    ∀ (asgs : List AsgSpec) (base : Nat),
    (∀ a ∈ asgs, ∀ e ∈ a.args, goodArgB e = true) →
    ((nodesOf (asgs.map asgEvent) base).flatMap
      fun n => n.outputs.map Port.id).Nodup
  | [], _, _ => by simp [nodesOf]
  | a :: rest, base, hg => by
    rw [List.map_cons, show nodesOf (asgEvent a :: rest.map asgEvent) base =
      mkNode base (asgEvent a) :: nodesOf (rest.map asgEvent) (base + 1)
      from rfl, List.flatMap_cons]
    rw [List.nodup_append]
    refine ⟨?_, outputKeys_nodup rest (base + 1)
      (fun x hx => hg x (List.mem_cons_of_mem _ hx)), ?_⟩
    · rw [mkNode_asg base a (hg a (by simp))]
      simp
    · intro idv h1 h2
      rw [mkNode_asg base a (hg a (by simp))] at h1
      simp at h1
      rcases flatOutput_parent rest (base + 1)
        (fun x hx => hg x (List.mem_cons_of_mem _ hx)) idv h2 with
        ⟨k2, hk2, hparent2, _⟩
      have hparent1 : portParent idv = mkNodeId base := by
        rw [h1]
        exact portParent_output base
      have := mkNodeId_inj (hparent1.symm.trans hparent2)
      omega

end ToolAgentDemo

namespace ToolAgentDemo

theorem inputVars_keys (g : WorkflowGraph) :
    (inputVars g).map Prod.fst =
      g.nodes.flatMap fun n => n.inputs.map Port.id := by
  rw [inputVars, List.map_flatMap]
  congr 1
  funext n
  rw [List.map_map]
  rfl

theorem outputVars_keys (g : WorkflowGraph) :
    (outputVars g).map Prod.fst =
      g.nodes.flatMap fun n => n.outputs.map Port.id := by
  rw [outputVars, List.map_flatMap]
  congr 1
  funext n
  rw [List.map_map]
  rfl

theorem mem_inputVars (g : WorkflowGraph) (n : Node) (hn : n ∈ g.nodes)
    (p : Port) (hp : p ∈ n.inputs) : (p.id, p.name) ∈ inputVars g := by
  rw [inputVars]
  exact List.mem_flatMap.2 ⟨n, hn, List.mem_map.2 ⟨p, hp, rfl⟩⟩

theorem mem_outputVars (g : WorkflowGraph) (n : Node) (hn : n ∈ g.nodes)
    (p : Port) (hp : p ∈ n.outputs) : (p.id, p.name) ∈ outputVars g := by
  rw [outputVars]
  exact List.mem_flatMap.2 ⟨n, hn, List.mem_map.2 ⟨p, hp, rfl⟩⟩

theorem isLiteralName_strRepr (s : String) :
    isLiteralName ("'" ++ s ++ "'") = true := by
  unfold isLiteralName
  rw [show ("'" ++ s ++ "'").data = '\'' :: (s.data ++ ['\''])
    from by simp [String.data_append]]
  rfl

theorem goodArg_name_parts {x : String}
    (h : goodArgB (.name x) = true) :
    isLiteralName x = false ∧ strToNat? x = Option.none := by
  simp only [goodArgB, Bool.and_eq_true, Bool.not_eq_true'] at h
  exact ⟨h.1, by
    rcases h with ⟨_, h2⟩
    cases hx : strToNat? x with
    | none => rfl
    | some v => rw [hx] at h2; cases h2⟩

theorem portsOfFrom_args_roundtrip (g : WorkflowGraph) (k : Nat) :
    ∀ (args : List Expr) (i : Nat), (∀ e ∈ args, goodArgB e = true) →
    (∀ p ∈ portsOfFrom (mkNodeId k) i args,
      (inputVars g).lookup p.id = some p.name) →
    (portsOfFrom (mkNodeId k) i args).map (fun ip =>
      if isLiteralName ip.name then parseArgText ip.name
      else parseArgText (((inputVars g).lookup ip.id).getD ip.name)) = args
  | [], _, _, _ => rfl
  | e :: rest, i, hg, hl => by
    have he : goodArgB e = true := hg e (by simp)
    rw [show portsOfFrom (mkNodeId k) i (e :: rest) =
      ⟨mkNodeId k ++ ":input:" ++ Nat.repr i, portNameOf e⟩ ::
        portsOfFrom (mkNodeId k) (i + 1) rest from rfl]
    rw [List.map_cons]
    rw [portsOfFrom_args_roundtrip g k rest (i + 1)
      (fun x hx => hg x (List.mem_cons_of_mem _ hx))
      (fun p hp => hl p (List.mem_cons_of_mem _ hp))]
    congr 1
    cases e with
    | name x =>
      rcases goodArg_name_parts he with ⟨hlit, hnat⟩
      rw [show portNameOf (Expr.name x) = x from rfl]
      rw [if_neg (by rw [hlit]; exact fun h => nomatch h)]
      rw [hl ⟨mkNodeId k ++ ":input:" ++ Nat.repr i, x⟩ (by
        rw [show portsOfFrom (mkNodeId k) i (Expr.name x :: rest) =
          ⟨mkNodeId k ++ ":input:" ++ Nat.repr i, x⟩ ::
            portsOfFrom (mkNodeId k) (i + 1) rest from rfl]
        simp)]
      exact parseArgText_name x hlit hnat
    | const v =>
      cases v with
      | str s =>
        rw [show portNameOf (Expr.const (.str s)) = "'" ++ s ++ "'" from rfl]
        rw [if_pos (isLiteralName_strRepr s)]
        exact parseArgText_quoted s
      | none => simp [goodArgB] at he
      | int n => simp [goodArgB] at he
      | bool b => simp [goodArgB] at he
      | tuple vs => simp [goodArgB] at he
      | list vs => simp [goodArgB] at he
      | exn c m => simp [goodArgB] at he
    | call m as => simp [goodArgB] at he
    | binor x y => simp [goodArgB] at he

theorem nodeStmt_asg (g : WorkflowGraph) (k : Nat) (a : AsgSpec)
    (hgood : ∀ e ∈ a.args, goodArgB e = true)
    (hlIn : ∀ p ∈ portsOfFrom (mkNodeId k) 0 a.args,
      (inputVars g).lookup p.id = some p.name)
    (hlOut : (outputVars g).lookup (mkNodeId k ++ ":output:0") =
      some a.target) :
    nodeStmt g (mkNode k (asgEvent a)) = asgStmt a := by
  rw [mkNode_asg k a hgood]
  unfold nodeStmt
  simp only
  rw [portsOfFrom_args_roundtrip g k a.args 0 hgood hlIn, hlOut]
  rfl

end ToolAgentDemo

namespace ToolAgentDemo

/-- The graph the serializer produces for an assignment-only body. -/
def gOf (asgs : List AsgSpec) : WorkflowGraph :=
  ⟨nodesOf (asgs.map asgEvent) 0, edgesGo (nodesOf (asgs.map asgEvent) 0) [] 0⟩

theorem functionCalls_asgs :
    ∀ asgs : List AsgSpec, functionCalls (asgs.map asgStmt) = asgs.map asgEvent
  | [] => rfl
  | a :: rest => by
    rw [List.map_cons, List.map_cons,
      show functionCalls (asgStmt a :: rest.map asgStmt) =
        analyzeStmt (asgStmt a) ++ functionCalls (rest.map asgStmt) from rfl,
      functionCalls_asgs rest]
    rfl

theorem serializeWorkflow_asgs_ret (asgs : List AsgSpec) (y : String) :
    serializeWorkflow (asgs.map asgStmt ++ [Stmt.ret (.name y)]) = gOf asgs := by
  rw [serializeWorkflow_eq]
  have h : functionCalls (asgs.map asgStmt ++ [Stmt.ret (.name y)]) =
      asgs.map asgEvent := by
    rw [functionCalls, List.flatMap_append, ← functionCalls]
    rw [functionCalls_asgs asgs,
      show [Stmt.ret (.name y)].flatMap analyzeStmt = [] from rfl,
      List.append_nil]
  rw [h]
  rfl

theorem serializeWorkflow_asgs (asgs : List AsgSpec) :
    serializeWorkflow (asgs.map asgStmt) = gOf asgs := by
  rw [serializeWorkflow_eq, functionCalls_asgs asgs]
  rfl

theorem lookup_inputVars_gOf (asgs : List AsgSpec)
    (hg : ∀ a ∈ asgs, ∀ e ∈ a.args, goodArgB e = true) :
    ∀ n ∈ (gOf asgs).nodes, ∀ p ∈ n.inputs,
    (inputVars (gOf asgs)).lookup p.id = some p.name := by
  intro n hn p hp
  apply lookup_of_nodup_keys
  · rw [inputVars_keys]
    exact inputKeys_nodup asgs 0 hg
  · exact mem_inputVars _ n hn p hp

theorem lookup_outputVars_gOf (asgs : List AsgSpec)
    (hg : ∀ a ∈ asgs, ∀ e ∈ a.args, goodArgB e = true) :
    ∀ n ∈ (gOf asgs).nodes, ∀ p ∈ n.outputs,
    (outputVars (gOf asgs)).lookup p.id = some p.name := by
  intro n hn p hp
  apply lookup_of_nodup_keys
  · rw [outputVars_keys]
    exact outputKeys_nodup asgs 0 hg
  · exact mem_outputVars _ n hn p hp

theorem gOf_edge_parents (asgs : List AsgSpec)
    (hg : ∀ a ∈ asgs, ∀ e ∈ a.args, goodArgB e = true) :
    ∀ e ∈ (gOf asgs).edges,
    ∃ s t : Nat, s < t ∧ portParent e.source = mkNodeId s ∧
      portParent e.target = mkNodeId t := by
  intro e he
  exact edgesGo_parents (nodesOf (asgs.map asgEvent) 0) [] 0 0
    (by intro n hn; cases hn) (chainGood_nodesOf asgs 0 hg) e he

theorem nodesOf_ids_mem :
    ∀ (l : List AsgSpec) (b : Nat) (x : String),
    x ∈ (nodesOf (l.map asgEvent) b).map Node.id ↔
      ∃ j, b ≤ j ∧ j < b + l.length ∧ x = mkNodeId j
  | [], b, x => by
    simp [nodesOf]
    omega
  | a :: rest, b, x => by
    rw [List.map_cons, show nodesOf (asgEvent a :: rest.map asgEvent) b =
      mkNode b (asgEvent a) :: nodesOf (rest.map asgEvent) (b + 1) from rfl,
      List.map_cons, mkNode_id]
    constructor
    · intro hx
      rcases List.mem_cons.1 hx with h | h
      · exact ⟨b, Nat.le_refl b, by simp only [List.length_cons]; omega, h⟩
      · rcases (nodesOf_ids_mem rest (b + 1) x).1 h with ⟨j, h1, h2, h3⟩
        refine ⟨j, by omega, by simp at h2 ⊢; omega, h3⟩
    · rintro ⟨j, h1, h2, h3⟩
      by_cases hjb : j = b
      · subst hjb
        rw [h3]
        simp
      · refine List.mem_cons_of_mem _ ((nodesOf_ids_mem rest (b + 1) x).2
          ⟨j, by omega, by simp at h2 ⊢; omega, h3⟩)

theorem contains_true_of_mem {l : List String} {x : String} (h : x ∈ l) :
    l.contains x = true := List.elem_iff.2 h

theorem contains_false_of_not_mem {l : List String} {x : String}
    (h : x ∉ l) : l.contains x = false := by
  cases hc : l.contains x with
  | false => rfl
  | true => exact absurd (List.elem_iff.1 hc) h

theorem find?_pre (target : Node) :
    ∀ (pre post : List Node), (∀ m ∈ pre, m.id ≠ target.id) →
    ((pre ++ target :: post).find? fun m => m.id == target.id) = some target
  | [], post, _ => by
    rw [List.nil_append, List.find?_cons]
    simp
  | m :: pre, post, h => by
    rw [List.cons_append, List.find?_cons]
    have hm : (m.id == target.id) = false := by
      simpa using h m (by simp)
    rw [hm]
    exact find?_pre target pre post fun x hx => h x (List.mem_cons_of_mem _ hx)

theorem processDeps_noop (g : WorkflowGraph) :
    ∀ (ds : List String) (fuel : Nat) (acc : List String × List Stmt),
    (∀ d ∈ ds, acc.1.contains d = true) → 1 ≤ fuel →
    processDeps g fuel acc ds = acc
  | [], fuel, acc, _, _ => by simp [processDeps]
  | d :: ds, fuel, acc, h, hf => by
    obtain ⟨f, rfl⟩ : ∃ f, fuel = f + 1 := ⟨fuel - 1, by omega⟩
    simp only [processDeps, List.foldl_cons]
    rw [show processNode g (f + 1) acc d = acc from by
      simp only [processNode]
      rw [if_pos (h d (by simp))]]
    exact processDeps_noop g ds (f + 1) acc
      (fun x hx => h x (List.mem_cons_of_mem _ hx)) hf

end ToolAgentDemo

namespace ToolAgentDemo

theorem processNode_found (g : WorkflowGraph) (fuel : Nat)
    (acc : List String × List Stmt) (nid : String) (node : Node)
    (hc : acc.1.contains nid = false)
    (hfind : (g.nodes.find? fun n => n.id == nid) = some node) :
    processNode g (fuel + 1) acc nid =
      ((processDeps g fuel acc (depsOf g nid)).1 ++ [nid],
       (processDeps g fuel acc (depsOf g nid)).2 ++ [nodeStmt g node]) := by
  simp only [processNode]
  rw [hc, if_neg (show ¬(false = true) from by simp)]
  rw [hfind]
  rfl

theorem processNode_step (pre : List AsgSpec) (a : AsgSpec)
    (post : List AsgSpec)
    (hg : ∀ x ∈ pre ++ a :: post, ∀ e ∈ x.args, goodArgB e = true)
    (fuel : Nat) (hf : 1 ≤ fuel) :
    processNode (gOf (pre ++ a :: post)) (fuel + 1)
      ((nodesOf (pre.map asgEvent) 0).map Node.id, pre.map asgStmt)
      (mkNodeId pre.length) =
      ((nodesOf ((pre ++ [a]).map asgEvent) 0).map Node.id,
        (pre ++ [a]).map asgStmt) := by
  have hga : ∀ e ∈ a.args, goodArgB e = true := hg a (by simp)
  have hnodes : (gOf (pre ++ a :: post)).nodes =
      nodesOf (pre.map asgEvent) 0 ++
        mkNode pre.length (asgEvent a) ::
          nodesOf (post.map asgEvent) (pre.length + 1) := by
    show nodesOf ((pre ++ a :: post).map asgEvent) 0 = _
    rw [List.map_append, nodesOf_append, List.map_cons,
      show nodesOf (asgEvent a :: post.map asgEvent)
          (0 + (pre.map asgEvent).length) =
        mkNode (0 + (pre.map asgEvent).length) (asgEvent a) ::
          nodesOf (post.map asgEvent)
            (0 + (pre.map asgEvent).length + 1) from rfl]
    simp only [List.length_map, Nat.zero_add]
  have hmemnode : mkNode pre.length (asgEvent a) ∈
      (gOf (pre ++ a :: post)).nodes := by
    rw [hnodes]
    exact List.mem_append_right _ (List.mem_cons_self _ _)
  have hnm : mkNodeId pre.length ∉
      (nodesOf (pre.map asgEvent) 0).map Node.id := by
    intro hmem
    rcases (nodesOf_ids_mem pre 0 _).1 hmem with ⟨j, _, hj2, hj3⟩
    have := mkNodeId_inj hj3
    omega
  have hc : (((nodesOf (pre.map asgEvent) 0).map Node.id,
      pre.map asgStmt) : List String × List Stmt).1.contains
        (mkNodeId pre.length) = false := contains_false_of_not_mem hnm
  have hfind : ((gOf (pre ++ a :: post)).nodes.find? fun n =>
      n.id == mkNodeId pre.length) =
      some (mkNode pre.length (asgEvent a)) := by
    rw [hnodes]
    have hpre : ∀ m ∈ nodesOf (pre.map asgEvent) 0,
        m.id ≠ (mkNode pre.length (asgEvent a)).id := by
      intro m hm heq
      rw [mkNode_id] at heq
      have hmm : m.id ∈ (nodesOf (pre.map asgEvent) 0).map Node.id :=
        List.mem_map.2 ⟨m, hm, rfl⟩
      rcases (nodesOf_ids_mem pre 0 _).1 hmm with ⟨j, _, hj2, hj3⟩
      rw [heq] at hj3
      have := mkNodeId_inj hj3
      omega
    have := find?_pre (mkNode pre.length (asgEvent a))
      (nodesOf (pre.map asgEvent) 0)
      (nodesOf (post.map asgEvent) (pre.length + 1)) hpre
    simp only [mkNode_id] at this
    exact this
  have hdeps : processDeps (gOf (pre ++ a :: post)) fuel
      (((nodesOf (pre.map asgEvent) 0).map Node.id,
        pre.map asgStmt) : List String × List Stmt)
      (depsOf (gOf (pre ++ a :: post)) (mkNodeId pre.length)) =
      (((nodesOf (pre.map asgEvent) 0).map Node.id,
        pre.map asgStmt) : List String × List Stmt) := by
    apply processDeps_noop
    · intro d hd
      rcases depsOf_bound (gOf (pre ++ a :: post)) pre.length
        (gOf_edge_parents _ hg) d hd with ⟨j, hj, hdj⟩
      exact contains_true_of_mem
        ((nodesOf_ids_mem pre 0 d).2 ⟨j, Nat.zero_le j, by omega, hdj⟩)
    · exact hf
  have hstmt : nodeStmt (gOf (pre ++ a :: post))
      (mkNode pre.length (asgEvent a)) = asgStmt a := by
    apply nodeStmt_asg _ _ _ hga
    · intro p hp
      apply lookup_inputVars_gOf _ hg _ hmemnode
      rw [mkNode_asg _ _ hga]
      exact hp
    · have hop : (⟨mkNodeId pre.length ++ ":output:0", a.target⟩ : Port) ∈
          (mkNode pre.length (asgEvent a)).outputs := by
        rw [mkNode_asg _ _ hga]
        simp
      exact lookup_outputVars_gOf _ hg _ hmemnode _ hop
  rw [processNode_found _ fuel _ _ _ hc hfind, hdeps, hstmt]
  simp only [List.map_append, nodesOf_append, List.length_map,
    Nat.zero_add, List.map_cons, List.map_nil, nodesOf, mkNode_id]

theorem foldl_process_gOf (asgs : List AsgSpec)
    (hg : ∀ x ∈ asgs, ∀ e ∈ x.args, goodArgB e = true)
    (fuel : Nat) (hf : 2 ≤ fuel) :
    ∀ (post pre : List AsgSpec), asgs = pre ++ post →
    (nodesOf (post.map asgEvent) pre.length).foldl
      (fun acc n => processNode (gOf asgs) fuel acc n.id)
      ((nodesOf (pre.map asgEvent) 0).map Node.id, pre.map asgStmt) =
      ((nodesOf (asgs.map asgEvent) 0).map Node.id, asgs.map asgStmt)
  | [], pre, hsplit => by
    rw [show nodesOf (List.map asgEvent []) pre.length = [] from rfl,
      List.foldl_nil, hsplit, List.append_nil]
  | a :: post, pre, hsplit => by
    obtain ⟨f, rfl⟩ : ∃ f, fuel = f + 1 := ⟨fuel - 1, by omega⟩
    subst hsplit
    rw [List.map_cons,
      show nodesOf (asgEvent a :: post.map asgEvent) pre.length =
        mkNode pre.length (asgEvent a) ::
          nodesOf (post.map asgEvent) (pre.length + 1) from rfl]
    simp only [List.foldl_cons, mkNode_id]
    rw [processNode_step pre a post hg f (by omega)]
    have ih := foldl_process_gOf (pre ++ a :: post) hg (f + 1) hf post
      (pre ++ [a]) (by simp)
    simp only [List.length_append, List.length_cons, List.length_nil,
      Nat.zero_add] at ih
    exact ih

theorem nodesOf_length :
    ∀ (l : List FunctionCall) (b : Nat), (nodesOf l b).length = l.length
  | [], _ => rfl
  | fc :: rest, b => by
    rw [show nodesOf (fc :: rest) b = mkNode b fc :: nodesOf rest (b + 1)
      from rfl, List.length_cons, nodesOf_length rest (b + 1),
      List.length_cons]

theorem deserialize_gOf (asgs : List AsgSpec) (hne : asgs ≠ [])
    (hg : ∀ x ∈ asgs, ∀ e ∈ x.args, goodArgB e = true) :
    deserializeWorkflow (gOf asgs) = asgs.map asgStmt := by
  have hlen : (gOf asgs).nodes.length = asgs.length := by
    show (nodesOf (asgs.map asgEvent) 0).length = _
    rw [nodesOf_length, List.length_map]
  have h2 : 2 ≤ (gOf asgs).nodes.length + 1 := by
    rw [hlen]
    cases asgs with
    | nil => exact absurd rfl hne
    | cons _ _ => simp only [List.length_cons]; omega
  have hmain := foldl_process_gOf asgs hg ((gOf asgs).nodes.length + 1) h2
    asgs [] rfl
  simp only [List.length_nil, List.map_nil, nodesOf] at hmain
  unfold deserializeWorkflow
  rw [show (gOf asgs).nodes = nodesOf (asgs.map asgEvent) 0 from rfl] at hmain ⊢
  rw [hmain]

end ToolAgentDemo

namespace ToolAgentDemo


/-- Composition of a run outcome with the run of a trailing statement
list: a raise propagates; a finished prefix continues in its final
environment, with the traces concatenated. -/
def seqTail (tools : Tools) (tail : List Stmt) : RunOut → RunOut
  | .raised tr e => .raised tr e
  | .finished tr _ envF =>
    match runStmts tools tail envF with
    | .finished tr2 r2 env2 => .finished (tr ++ tr2) r2 env2
    | .raised tr2 e => .raised (tr ++ tr2) e

/-- Prepends one yielded element to a run outcome. -/
def consYield (v : Arg) : RunOut → RunOut
  | .finished tr r envF => .finished (v :: tr) r envF
  | .raised tr e => .raised (v :: tr) e

theorem seqTail_consYield (tools : Tools) (tail : List Stmt) (v : Arg) :
    ∀ o : RunOut, seqTail tools tail (consYield v o) =
      consYield v (seqTail tools tail o)
  | .raised tr e => rfl
  | .finished tr r envF => by
    simp only [consYield, seqTail]
    cases h : runStmts tools tail envF with
    | finished tr2 r2 env2 => rfl
    | raised tr2 e => rfl

/-- Reference run of an assignment-only workflow: execute each tool
call, bind the target, and yield the call's value (what the transformed
body does step by step). -/
def runAsgs (tools : Tools) : List AsgSpec → List (String × Arg) → RunOut
  | [], env => .finished [] Option.none env
  | a :: rest, env =>
    match evalExpr tools env (.call a.tool a.args) with
    | .error err => .raised [] err
    | .ok v => consYield v (runAsgs tools rest ((a.target, v) :: env))

theorem runStmts_trans_asgs (tools : Tools) :
    ∀ (asgs : List AsgSpec),
    (∀ x ∈ asgs, (tools.lookup x.tool).isSome = true) →
    ∀ (tail : List Stmt) (env : List (String × Arg)),
    runStmts tools (transformStmts tools (asgs.map asgStmt) ++ tail) env =
      seqTail tools tail (runAsgs tools asgs env)
  | [], _, tail, env => by
    rw [show transformStmts tools (List.map asgStmt []) = [] from rfl,
      List.nil_append,
      show runAsgs tools [] env = .finished [] Option.none env from rfl]
    simp only [seqTail]
    cases h : runStmts tools tail env with
    | finished tr2 r2 env2 => rfl
    | raised tr2 e => rfl
  | a :: rest, htools, tail, env => by
    have ha : isToolCall tools (.call a.tool a.args) = true := by
      show (tools.lookup a.tool).isSome = true
      exact htools a (by simp)
    have htr : ∀ x ∈ rest, (tools.lookup x.tool).isSome = true :=
      fun x hx => htools x (List.mem_cons_of_mem _ hx)
    rw [List.map_cons,
      show transformStmts tools (asgStmt a :: rest.map asgStmt) =
        transformStmt tools (asgStmt a) ++
          transformStmts tools (rest.map asgStmt) from rfl,
      show transformStmt tools (asgStmt a) =
        if isToolCall tools (.call a.tool a.args) then
          [.assign a.target (.call a.tool a.args),
           .yieldStmt (.name a.target)]
        else [.assign a.target (.call a.tool a.args)] from rfl,
      if_pos ha]
    simp only [List.cons_append, List.nil_append, List.append_assoc]
    cases heval : evalExpr tools env (.call a.tool a.args) with
    | error err => simp only [runStmts, runAsgs, heval, seqTail]
    | ok v =>
      have hname : evalExpr tools ((a.target, v) :: env) (.name a.target) =
          .ok v := by
        simp [evalExpr, List.lookup]
      simp only [runStmts, runAsgs, heval, hname]
      rw [runStmts_trans_asgs tools rest htr tail ((a.target, v) :: env),
        seqTail_consYield]
      generalize seqTail tools tail (runAsgs tools rest ((a.target, v) :: env)) = o
      cases o with
      | finished tr r envF => rfl
      | raised tr e => rfl

theorem lookup_isSome_cons {x t : String} {v : Arg}
    {env : List (String × Arg)} (h : (env.lookup x).isSome = true) :
    (((t, v) :: env).lookup x).isSome = true := by
  rw [List.lookup_cons]
  cases hx : x == t with
  | true => rfl
  | false => exact h

theorem runAsgs_env_mono (tools : Tools) :
    ∀ (asgs : List AsgSpec) (env : List (String × Arg)) (tr : List Arg)
      (r : Option Arg) (envF : List (String × Arg)),
    runAsgs tools asgs env = .finished tr r envF →
    ∀ x, (env.lookup x).isSome = true → (envF.lookup x).isSome = true
  | [], env, tr, r, envF, h, x, hx => by
    simp only [runAsgs] at h
    cases h
    exact hx
  | a :: rest, env, tr, r, envF, h, x, hx => by
    cases heval : evalExpr tools env (.call a.tool a.args) with
    | error err =>
      simp only [runAsgs, heval] at h
      exact RunOut.noConfusion h
    | ok v =>
      simp only [runAsgs, heval] at h
      cases hra : runAsgs tools rest ((a.target, v) :: env) with
      | raised tr2 e =>
        rw [hra] at h
        simp only [consYield] at h
        exact RunOut.noConfusion h
      | finished tr2 r2 env2 =>
        rw [hra] at h
        simp only [consYield] at h
        cases h
        exact runAsgs_env_mono tools rest _ _ _ _ hra x
          (lookup_isSome_cons hx)

theorem runAsgs_targets (tools : Tools) :
    ∀ (asgs : List AsgSpec) (env : List (String × Arg)) (tr : List Arg)
      (r : Option Arg) (envF : List (String × Arg)),
    runAsgs tools asgs env = .finished tr r envF →
    ∀ x ∈ asgs.map AsgSpec.target, (envF.lookup x).isSome = true
  | [], _, _, _, _, _, x, hx => by cases hx
  | a :: rest, env, tr, r, envF, h, x, hx => by
    cases heval : evalExpr tools env (.call a.tool a.args) with
    | error err =>
      simp only [runAsgs, heval] at h
      exact RunOut.noConfusion h
    | ok v =>
      simp only [runAsgs, heval] at h
      cases hra : runAsgs tools rest ((a.target, v) :: env) with
      | raised tr2 e =>
        rw [hra] at h
        simp only [consYield] at h
        exact RunOut.noConfusion h
      | finished tr2 r2 env2 =>
        rw [hra] at h
        simp only [consYield] at h
        cases h
        rw [List.map_cons] at hx
        rcases List.mem_cons.1 hx with hhead | htail
        · subst hhead
          exact runAsgs_env_mono tools rest _ _ _ _ hra a.target
            (by simp [List.lookup])
        · exact runAsgs_targets tools rest _ _ _ _ hra x htail

theorem drain_roundtrip (tools : Tools) (asgs : List AsgSpec) (y : String)
    (htools : ∀ x ∈ asgs, (tools.lookup x.tool).isSome = true)
    (hy : y ∈ asgs.map AsgSpec.target) :
    drainRun tools (transformStmts tools (asgs.map asgStmt)) =
      drainRun tools
        (transformStmts tools (asgs.map asgStmt ++ [Stmt.ret (.name y)])) := by
  unfold drainRun
  rw [show transformStmts tools (asgs.map asgStmt ++ [Stmt.ret (.name y)]) =
      transformStmts tools (asgs.map asgStmt) ++ [Stmt.ret (.name y)] from by
    unfold transformStmts
    rw [List.flatMap_append,
      show [Stmt.ret (.name y)].flatMap (transformStmt tools) =
        [Stmt.ret (.name y)] from rfl]]
  rw [runStmts_trans_asgs tools asgs htools [Stmt.ret (.name y)] []]
  rw [show transformStmts tools (asgs.map asgStmt) =
      transformStmts tools (asgs.map asgStmt) ++ [] from
    (List.append_nil _).symm]
  rw [runStmts_trans_asgs tools asgs htools [] []]
  cases hra : runAsgs tools asgs [] with
  | raised tr e => rfl
  | finished tr r envF =>
    have hsome := runAsgs_targets tools asgs [] tr r envF hra y hy
    rcases Option.isSome_iff_exists.1 hsome with ⟨v, hv⟩
    simp only [seqTail, runStmts, evalExpr, hv]

end ToolAgentDemo

namespace ToolAgentDemo

/-- Every tool-call argument in the statement is a named variable or a
quoted string constant (the precondition of the round-trip claim). -/
def stmtArgsGoodB : Stmt → Bool
  | .assign _ (.call _ args) => args.all goodArgB
  | .ret (.call _ args) => args.all goodArgB
  | .expr (.call _ args) => args.all goodArgB
  | .yieldStmt (.call _ args) => args.all goodArgB
  | _ => true

/-- The yielded elements of a run of a body from the empty
environment (whether it finished or raised). -/
def traceOf (tools : Tools) (body : List Stmt) : List Arg :=
  match runStmts tools body [] with
  | .finished tr _ _ => tr
  | .raised tr _ => tr

/-- Raw tool `t1(s)` returning `ok ("s" + "_1")`, for the round-trip
counterexample. -/
def rawStep1 : RawTool := fun args _kwargs =>
  match args with
  | [.val (.str s)] => .ok (.str (s ++ "_1"))
  | _ => .error (.exn "TypeError" "bad arguments")

/-- Raw tool `t2(s)` returning `ok ("s" + "_2")`, for the round-trip
counterexample. -/
def rawStep2 : RawTool := fun args _kwargs =>
  match args with
  | [.val (.str s)] => .ok (.str (s ++ "_2"))
  | _ => .error (.exn "TypeError" "bad arguments")

/-- Tool registry of the round-trip counterexample. -/
def cexC4Tools : Tools := [("t1", rawStep1), ("t2", rawStep2)]

/-- The counterexample body `x = self.t1("d"); return self.t2(x)`: all
tool-call arguments are named variables or quoted string constants. -/
def cexC4Body : List Stmt :=
  [.assign "x" (.call "t1" [.const (.str "d")]),
   .ret (.call "t2" [.name "x"])]

/-- **C4.** Counterexample to the universal round-trip claim: the body
`x = self.t1("d"); return self.t2(x)` uses only named-variable and
quoted-string arguments, and the original workflow drains to the value
of `t2(t1("d"))`; but the analyzer records the returned call without a
target, so the deserialized body holds it as a bare expression
statement, which the transformer does not yield - the regenerated
workflow drains to the value of `t1("d")` instead. -/
theorem c4_counterexample :
    cexC4Body.all stmtArgsGoodB = true ∧
    drainRun cexC4Tools (transformStmts cexC4Tools cexC4Body) =
      .finalOut (.str "d_1_2") ∧
    drainRun cexC4Tools (transformStmts cexC4Tools
        (deserializeWorkflow (serializeWorkflow cexC4Body))) =
      .finalOut (.str "d_1") ∧
    ("d_1_2" : String) ≠ "d_1" :=
  ⟨rfl, rfl, rfl, by decide⟩

/-- **C4.** (amended) For an assignment-only workflow of tool calls
whose arguments are named variables or quoted string constants,
followed by a return of one of the assigned names: deserializing the
serialized graph reproduces exactly the assignment statements (the
trailing return is dropped), and the regenerated workflow's drained
execution outcome equals the original's, because the drive loop reads
only the yielded stream and ignores the generator's return value. -/
theorem c4_amended (tools : Tools) (asgs : List AsgSpec) (y : String)
    (hne : asgs ≠ [])
    (hg : ∀ x ∈ asgs, ∀ e ∈ x.args, goodArgB e = true)
    (htools : ∀ x ∈ asgs, (tools.lookup x.tool).isSome = true)
    (hy : y ∈ asgs.map AsgSpec.target) :
    deserializeWorkflow
        (serializeWorkflow (asgs.map asgStmt ++ [Stmt.ret (.name y)])) =
      asgs.map asgStmt ∧
    drainRun tools (transformStmts tools (deserializeWorkflow
        (serializeWorkflow (asgs.map asgStmt ++ [Stmt.ret (.name y)])))) =
      drainRun tools
        (transformStmts tools (asgs.map asgStmt ++ [Stmt.ret (.name y)])) := by
  have h1 : deserializeWorkflow
      (serializeWorkflow (asgs.map asgStmt ++ [Stmt.ret (.name y)])) =
      asgs.map asgStmt := by
    rw [serializeWorkflow_asgs_ret asgs y, deserialize_gOf asgs hne hg]
  refine ⟨h1, ?_⟩
  rw [h1]
  exact drain_roundtrip tools asgs y htools hy

/-- Raw tool `t1(s)` of the spec's concrete scenario: prefixes
`processed_`. -/
def rawT1demo : RawTool := fun args _kwargs =>
  match args with
  | [.val (.str s)] => .ok (.str ("processed_" ++ s))
  | _ => .error (.exn "TypeError" "bad arguments")

/-- Raw tool `t2(p, q)` of the spec's concrete scenario: combines its
two arguments. -/
def rawT2demo : RawTool := fun args _kwargs =>
  match args with
  | [.val (.str p), .val (.str q)] =>
    .ok (.str ("combined_" ++ p ++ "_" ++ q))
  | _ => .error (.exn "TypeError" "bad arguments")

/-- Tool registry of the concrete scenario. -/
def demoC4Tools : Tools := [("t1", rawT1demo), ("t2", rawT2demo)]

/-- The assignments `r1 = self.t1("d1"); r2 = self.t1("d2");
f = self.t2(r1, r2)`. -/
def demoC4Asgs : List AsgSpec :=
  [⟨"r1", "t1", [.const (.str "d1")]⟩,
   ⟨"r2", "t1", [.const (.str "d2")]⟩,
   ⟨"f", "t2", [.name "r1", .name "r2"]⟩]

/-- The spec's concrete round-trip body, ending in `return f`. -/
def demoC4Body : List Stmt := demoC4Asgs.map asgStmt ++ [Stmt.ret (.name "f")]

/-- Witness for the amended C4: instantiates `c4_amended` at the
`r1 = t1("d1"); r2 = t1("d2"); f = t2(r1, r2); return f` scenario and
checks the concrete facts: 3 nodes, 2 edges into the `t2` node,
re-execution yields one Result per node (3 total), and the final value
is `t2(t1("d1"), t1("d2"))`. -/
theorem c4_amended_witness :
    (deserializeWorkflow (serializeWorkflow demoC4Body) =
        demoC4Asgs.map asgStmt ∧
      drainRun demoC4Tools (transformStmts demoC4Tools
          (deserializeWorkflow (serializeWorkflow demoC4Body))) =
        drainRun demoC4Tools (transformStmts demoC4Tools demoC4Body)) ∧
    (serializeWorkflow demoC4Body).nodes.length = 3 ∧
    ((serializeWorkflow demoC4Body).edges.filter fun e =>
        portParent e.target == mkNodeId 2).length = 2 ∧
    traceOf demoC4Tools (transformStmts demoC4Tools
        (deserializeWorkflow (serializeWorkflow demoC4Body))) =
      [.res (toolWrapper rawT1demo [.val (.str "d1")] []),
       .res (toolWrapper rawT1demo [.val (.str "d2")] []),
       .res (toolWrapper rawT2demo
         [.res (toolWrapper rawT1demo [.val (.str "d1")] []),
          .res (toolWrapper rawT1demo [.val (.str "d2")] [])] [])] ∧
    drainRun demoC4Tools (transformStmts demoC4Tools
        (deserializeWorkflow (serializeWorkflow demoC4Body))) =
      .finalOut ((toolWrapper rawT2demo
        [.res (toolWrapper rawT1demo [.val (.str "d1")] []),
         .res (toolWrapper rawT1demo [.val (.str "d2")] [])] []).unwrap) :=
  ⟨c4_amended demoC4Tools demoC4Asgs "f"
      (fun h => List.noConfusion h) (by decide) (by decide) (by decide),
    rfl, rfl, rfl, rfl⟩

end ToolAgentDemo
